import Mathlib

/-!
ChipChat — verification of the structural extractor, rule checker and estimation engine

Shallow embedding of the core of the ChipChat repository:

* `src/dashboard/src/components/utils/verilogParser.js`   (structural extractor)
* `src/unnamed/part_000`                                  (synthesis linter)
* `src/dashboard/src/components/utils/fpgaCalculations.js` (estimation engine)

The extractor and linter work on JavaScript strings via regular expressions; they are
embedded here as executable character-list scanners which hand-compile each regular
expression (leftmost match, greedy with the local backtracking the concrete patterns
need, `exec` resuming at the end of the previous match).  The estimation engine works
on JavaScript floating-point numbers; it is embedded over `ℝ`.  The final
`parseFloat(x.toFixed(k))` display rounding of the engine is a decimal-formatting step
on binary floats and is not modelled; all claims concern the computed quantities.
-/

namespace ChipChat

open scoped Classical

/-- JS `\s` character class, restricted to the ASCII whitespace characters
(the Unicode members of `\s` do not occur in any text considered here). -/
def jsSpace (c : Char) : Bool :=
  c = ' ' || c = '\t' || c = '\n' || c = '\x0b' || c = '\x0c' || c = '\r'

/-- JS `\w` character class `[A-Za-z0-9_]`. -/
def wordChar (c : Char) : Bool :=
  ('a' ≤ c && c ≤ 'z') || ('A' ≤ c && c ≤ 'Z') || ('0' ≤ c && c ≤ '9') || c = '_'

/-- JS `\d` character class. -/
def digitCh (c : Char) : Bool := '0' ≤ c && c ≤ '9'

/-- JS `String.prototype.includes`: `pat` occurs as a contiguous substring. -/
def containsSub (pat : List Char) : List Char → Bool
  | [] => pat.isEmpty
  | c :: t => pat.isPrefixOf (c :: t) || containsSub pat t

/-- `s.includes(pat)` for `String`s. -/
def sIncludes (s pat : String) : Bool := containsSub pat.data s.data

/-- JS `String.prototype.trim` (ASCII whitespace). -/
def trimChars (cs : List Char) : List Char :=
  ((cs.dropWhile jsSpace).reverse.dropWhile jsSpace).reverse

/-- `s.trim()` for `String`s. -/
def jsTrim (s : String) : String := ⟨trimChars s.data⟩

/-- JS `str.split('\n')` on character lists: `splitNl []` is `[[]]` just as
`"".split('\n')` is `[""]`. -/
def splitNl : List Char → List (List Char)
  | [] => [[]]
  | c :: t =>
    if c = '\n' then [] :: splitNl t
    else
      match splitNl t with
      | [] => [[c]]
      | l :: ls => (c :: l) :: ls

/-- `code.split('\n')` for `String`s. -/
def splitLines (s : String) : List String := (splitNl s.data).map (fun l => ⟨l⟩)

/-- Number of occurrences of the character `c` (JS `(line.match(/c/g) || []).length`). -/
def countCh (c : Char) (cs : List Char) : Nat := (cs.filter (fun d => d = c)).length

/-- Occurrences of the word `tok` with `\b` word boundaries on both sides
(JS `(line.match(/\btok\b/g) || []).length` for a purely word-character `tok`);
`prev` is the character immediately before the current position. -/
def countWordTokAux (tok : List Char) : Option Char → List Char → Nat
  | _, [] => 0
  | prev, c :: t =>
    let leftOk := match prev with | none => true | some p => !wordChar p
    let rightOk := match (c :: t).drop tok.length with | [] => true | d :: _ => !wordChar d
    (if leftOk && tok.isPrefixOf (c :: t) && rightOk then 1 else 0) +
      countWordTokAux tok (some c) t

/-- Word-boundary occurrence count of `tok` in `cs`. -/
def countWordTok (tok : List Char) (cs : List Char) : Nat := countWordTokAux tok none cs

/-- JS `parseInt` on a non-empty all-digit capture. -/
def parseDigitsNat (cs : List Char) : Nat := cs.foldl (fun a c => 10 * a + (c.toNat - 48)) 0

/-- `findLineNumber(code, position)` from `verilogParser.js`:
`code.substring(0, position).split('\n').length`, i.e. one more than the number of
newline characters strictly before `position` in the original text. -/
def findLineNumber (code : List Char) (pos : Nat) : Nat :=
  1 + ((code.take pos).filter (fun c => c = '\n')).length

/-! ## The declaration scanner

`extractPorts` uses `/(input|output|inout)\s*(?:\[\s*(\d+)\s*:\s*(\d+)\s*\])?\s*(\w+(?:\s*,\s*\w+)*)/g`
and `extractSignals` the same shape with `(wire|reg)`.  The scanner below hand-compiles
this regular expression: alternatives are tried in source order, `\s*`/`\w+`/`\d+` are
greedy (no backtracking is needed for them here because the neighbouring classes are
disjoint), a `[` that does not complete the optional range group makes the whole
attempt at this start position fail (exactly what the JS engine's backtracking yields,
since after skipping the optional group `\s*\w` cannot match at `[`), and each
iteration of the trailing `(?:\s*,\s*\w+)*` loop is committed only when it matches in
full.  `exec` restarts after the end of each (always non-empty) match. -/

/-- One raw regex match of the declaration pattern: matched keyword, optional
`[msb:lsb]` digit captures, the `\w+` name chunks of the fourth capture group
(equal to `portNames.split(',')` with each piece trimmed, since the chunks are
separated by `\s*,\s*`), and the match's start index. -/
structure RawDecl where
  kw : String
  range : Option (List Char × List Char)
  names : List (List Char)
  index : Nat
  deriving DecidableEq

/-- Try the keyword alternation `(k₁|k₂|…)` at the start of `cs`, in source order. -/
def takeKw : List String → List Char → Option (String × List Char)
  | [], _ => none
  | k :: ks, cs =>
    if k.data.isPrefixOf cs then some (k, cs.drop k.data.length) else takeKw ks cs

/-- The optional group `(?:\[\s*(\d+)\s*:\s*(\d+)\s*\])?`.  Returns `none` when a `[`
is present but the group cannot complete (which fails the whole match attempt).
Single-character pattern tests are written as `if c = '…'` head tests. -/
def parseRange (cs : List Char) : Option (Option (List Char × List Char) × List Char) :=
  match cs with
  | c :: r0 =>
    if c = '[' then
      let r1 := r0.dropWhile jsSpace
      let ds1 := r1.takeWhile digitCh
      if ds1.isEmpty then none
      else
        match (r1.drop ds1.length).dropWhile jsSpace with
        | c2 :: r3 =>
          if c2 = ':' then
            let r4 := r3.dropWhile jsSpace
            let ds2 := r4.takeWhile digitCh
            if ds2.isEmpty then none
            else
              match (r4.drop ds2.length).dropWhile jsSpace with
              | c3 :: r6 => if c3 = ']' then some (some (ds1, ds2), r6) else none
              | [] => none
          else none
        | [] => none
    else some (none, cs)
  | [] => some (none, cs)

/-- The trailing `(?:\s*,\s*\w+)*` loop; an iteration that cannot complete is rolled
back and the loop stops.  `fuel` bounds the number of iterations (each successful
iteration consumes at least two characters). -/
def nameLoop (tok : List Char → List Char) : Nat → List Char → List (List Char) →
    List (List Char) × List Char
  | 0, cs, acc => (acc.reverse, cs)
  | fuel + 1, cs, acc =>
    match cs.dropWhile jsSpace with
    | c :: r2 =>
      if c = ',' then
        let r3 := r2.dropWhile jsSpace
        let nm := tok r3
        if nm.isEmpty then (acc.reverse, cs)
        else nameLoop tok fuel (r3.drop nm.length) (nm :: acc)
      else (acc.reverse, cs)
    | [] => (acc.reverse, cs)

/-- Attempt the whole declaration pattern at the start of `cs`. -/
def tryMatchDecl (kws : List String) (cs : List Char) :
    Option (String × Option (List Char × List Char) × List (List Char) × List Char) :=
  match takeKw kws cs with
  | none => none
  | some (kw, r1) =>
    match parseRange (r1.dropWhile jsSpace) with
    | none => none
    | some (rng, r3) =>
      let r4 := r3.dropWhile jsSpace
      let nm := r4.takeWhile wordChar
      if nm.isEmpty then none
      else
        let (nms, rest) :=
          nameLoop (fun l => l.takeWhile wordChar) r4.length (r4.drop nm.length) [nm]
        some (kw, rng, nms, rest)

/-- The `exec` loop of the declaration regexes: leftmost match, restart after its
end, recording the start index of each match.  `fuel` is at least the length of the
scanned text plus one; every step strictly shortens the text. -/
def declScan (kws : List String) : Nat → List Char → Nat → List RawDecl
  | 0, _, _ => []
  | fuel + 1, cs, off =>
    match cs with
    | [] => []
    | c :: t =>
      match tryMatchDecl kws (c :: t) with
      | some (kw, rng, nms, rest) =>
        ⟨kw, rng, nms, off⟩ :: declScan kws fuel rest (off + ((c :: t).length - rest.length))
      | none => declScan kws fuel t (off + 1)

/-- `Port` entry produced by `extractPorts` (verilogParser.js lines 116-138):
`width = msb && lsb ? parseInt(msb) - parseInt(lsb) + 1 : 1`. -/
structure Port where
  name : String
  direction : String
  width : Int
  msb : Int
  lsb : Int
  line : Nat
  deriving DecidableEq

/-- The `Port` entries of one regex match (`portNames.split(',').forEach(...)`). -/
def portsOfRawDecl (code : List Char) (rd : RawDecl) : List Port :=
  let width : Int := match rd.range with
    | some (m, l) => (parseDigitsNat m : Int) - parseDigitsNat l + 1
    | none => 1
  let msb : Int := match rd.range with | some (m, _) => parseDigitsNat m | none => 0
  let lsb : Int := match rd.range with | some (_, l) => parseDigitsNat l | none => 0
  rd.names.map fun nm =>
    { name := ⟨nm⟩, direction := rd.kw, width := width, msb := msb, lsb := lsb,
      line := findLineNumber code rd.index }

/-- `extractPorts` from verilogParser.js: scan the whole given text (the caller
passes the raw, not comment-stripped, source). -/
def extractPorts (code : String) : List Port :=
  (declScan ["input", "output", "inout"] (code.data.length + 1) code.data 0).flatMap
    (portsOfRawDecl code.data)

/-- `Signal` entry produced by `extractSignals` (same shape as `Port`). -/
structure Signal where
  name : String
  type : String
  width : Int
  msb : Int
  lsb : Int
  line : Nat
  deriving DecidableEq

/-- The `Signal` entries of one regex match. -/
def signalsOfRawDecl (code : List Char) (rd : RawDecl) : List Signal :=
  let width : Int := match rd.range with
    | some (m, l) => (parseDigitsNat m : Int) - parseDigitsNat l + 1
    | none => 1
  let msb : Int := match rd.range with | some (m, _) => parseDigitsNat m | none => 0
  let lsb : Int := match rd.range with | some (_, l) => parseDigitsNat l | none => 0
  rd.names.map fun nm =>
    { name := ⟨nm⟩, type := rd.kw, width := width, msb := msb, lsb := lsb,
      line := findLineNumber code rd.index }

/-- `extractSignals` from verilogParser.js: the `(wire|reg)` declaration regex over
the raw text. -/
def extractSignals (code : String) : List Signal :=
  (declScan ["wire", "reg"] (code.data.length + 1) code.data 0).flatMap
    (signalsOfRawDecl code.data)

/-! ## Comment stripping

`removeComments` (verilogParser.js lines 70-78): first
`code.replace(/\/\/.*$/gm, '')` — on each line, cut from the first `//` to the end of
the line — then `code.replace(/\/\*[\s\S]*?\*\//g, '')` — repeatedly delete from a
`/*` to the nearest following `*/`, resuming after the deleted part; a `/*` with no
matching `*/` is left in place.  Note that `parseVerilogCode` applies this only
inside `tokenize`; every sub-extractor receives the raw text. -/

/-- Cut a line at its first `//`. -/
def cutLineComment : List Char → List Char
  | [] => []
  | c :: t => if "//".data.isPrefixOf (c :: t) then [] else c :: cutLineComment t

/-- `code.replace(/\/\/.*$/gm, '')`. -/
def stripLineComments (cs : List Char) : List Char :=
  List.intercalate ['\n'] ((splitNl cs).map cutLineComment)

/-- Text after the first `*/`, if any. -/
def findCloseComment : List Char → Option (List Char)
  | [] => none
  | c :: t => if "*/".data.isPrefixOf (c :: t) then some (t.drop 1) else findCloseComment t

/-- `code.replace(/\/\*[\s\S]*?\*\//g, '')`; `fuel` at least the length plus one. -/
def stripBlockComments : Nat → List Char → List Char
  | 0, cs => cs
  | _ + 1, [] => []
  | fuel + 1, c :: t =>
    if "/*".data.isPrefixOf (c :: t) then
      match findCloseComment (t.drop 1) with
      | some rest => stripBlockComments fuel rest
      | none => c :: t
    else c :: stripBlockComments fuel t

/-- `removeComments` from verilogParser.js: line comments first, then block comments. -/
def removeComments (code : String) : String :=
  ⟨stripBlockComments (code.data.length + 1) (stripLineComments code.data)⟩

/-! ## Continuous assignments

`extractAssignments` uses `/assign\s+([^=]+)\s*=\s*([^;]+)\s*;/g`.  The two greedy
captures are deterministic except when a capture would otherwise be all-whitespace
(then JS backtracking steals a space from the preceding `\s+`/`\s*`); no input
considered here hits that corner. -/

/-- Characters counted as operators by `calculateExpressionComplexity`
(`/[&|^~+\-*\/%<>=!]/g`). -/
def opChars : List Char := ['&', '|', '^', '~', '+', '-', '*', '/', '%', '<', '>', '=', '!']

/-- `calculateExpressionComplexity` (verilogParser.js lines 321-327):
operators + parenthesis characters / 2 + 2 × ternaries; the division makes the
result a rational. -/
def calculateExpressionComplexity (expression : List Char) : ℚ :=
  ((expression.filter (fun c => opChars.contains c)).length : ℚ) +
    ((expression.filter (fun c => c = '(' || c = ')')).length : ℚ) / 2 +
    (countCh '?' expression : ℚ) * 2

structure Assignment where
  lhs : String
  rhs : String
  line : Nat
  complexity : ℚ
  deriving DecidableEq

/-- Attempt `/assign\s+([^=]+)\s*=\s*([^;]+)\s*;/` at the start of `cs`; returns the
two raw captures and the rest after the match. -/
def tryMatchAssign (cs : List Char) : Option (List Char × List Char × List Char) :=
  if "assign".data.isPrefixOf cs then
    let r1 := cs.drop 6
    let ws := r1.takeWhile jsSpace
    if ws.isEmpty then none
    else
      let r2 := r1.drop ws.length
      let lhs := r2.takeWhile (fun c => c ≠ '=')
      if lhs.isEmpty then none
      else
        match r2.drop lhs.length with
        | '=' :: r4 =>
          let r5 := r4.dropWhile jsSpace
          let rhs := r5.takeWhile (fun c => c ≠ ';')
          if rhs.isEmpty then none
          else
            match r5.drop rhs.length with
            | ';' :: r7 => some (lhs, rhs, r7)
            | _ => none
        | _ => none
  else none

/-- The `exec` loop for `extractAssignments`. -/
def assignScan : Nat → List Char → Nat → List (List Char × List Char × Nat)
  | 0, _, _ => []
  | fuel + 1, cs, off =>
    match cs with
    | [] => []
    | c :: t =>
      match tryMatchAssign (c :: t) with
      | some (lhs, rhs, rest) =>
        (lhs, rhs, off) :: assignScan fuel rest (off + ((c :: t).length - rest.length))
      | none => assignScan fuel t (off + 1)

/-- `extractAssignments` from verilogParser.js: the captured `rhs` is used raw for
the complexity and trimmed for the stored field. -/
def extractAssignments (code : String) : List Assignment :=
  (assignScan (code.data.length + 1) code.data 0).map fun m =>
    { lhs := ⟨trimChars m.1⟩, rhs := ⟨trimChars m.2.1⟩,
      line := findLineNumber code.data m.2.2,
      complexity := calculateExpressionComplexity m.2.1 }

/-! ## Parameters

`extractParameters` uses
`/(parameter|localparam)\s+(?:\[\s*\d+\s*:\s*\d+\s*\])?\s*(\w+)\s*=\s*([^;,]+)/g`. -/

structure Parameter where
  name : String
  type : String
  value : String
  line : Nat
  deriving DecidableEq

/-- Attempt the parameter pattern at the start of `cs`. -/
def tryMatchParam (cs : List Char) : Option (String × List Char × List Char × List Char) :=
  match takeKw ["parameter", "localparam"] cs with
  | none => none
  | some (kw, r1) =>
    let ws := r1.takeWhile jsSpace
    if ws.isEmpty then none
    else
      match parseRange ((r1.drop ws.length).dropWhile jsSpace) with
      | none => none
      | some (_, r3) =>
        let r4 := r3.dropWhile jsSpace
        let nm := r4.takeWhile wordChar
        if nm.isEmpty then none
        else
          match (r4.drop nm.length).dropWhile jsSpace with
          | '=' :: r6 =>
            let r7 := r6.dropWhile jsSpace
            let v := r7.takeWhile (fun c => c ≠ ';' && c ≠ ',')
            if v.isEmpty then none else some (kw, nm, v, r7.drop v.length)
          | _ => none

/-- The `exec` loop for `extractParameters`. -/
def paramScan : Nat → List Char → Nat → List (String × List Char × List Char × Nat)
  | 0, _, _ => []
  | fuel + 1, cs, off =>
    match cs with
    | [] => []
    | c :: t =>
      match tryMatchParam (c :: t) with
      | some (kw, nm, v, rest) =>
        (kw, nm, v, off) :: paramScan fuel rest (off + ((c :: t).length - rest.length))
      | none => paramScan fuel t (off + 1)

/-- `extractParameters` from verilogParser.js.  The `\s+` after the keyword is
required; a `[` that does not complete the optional range group fails the attempt
(after backtracking `\s*\w` cannot match at `[`). -/
def extractParameters (code : String) : List Parameter :=
  (paramScan (code.data.length + 1) code.data 0).map fun m =>
    { name := ⟨trimChars m.2.1⟩, type := m.1, value := ⟨trimChars m.2.2.1⟩,
      line := findLineNumber code.data m.2.2.2 }

/-! ## Modules

`extractModules` uses
`/module\s+(\w+)\s*(?:\#\s*\([^)]*\))?\s*\(([^)]*)\)\s*;([\s\S]*?)endmodule/g`;
the non-greedy body capture runs to the first following `endmodule`. -/

structure ModParam where
  name : String
  value : Option String
  deriving DecidableEq

structure Module where
  name : String
  ports : List String
  body : String
  line_start : Nat
  line_end : Nat
  parameters : List ModParam
  deriving DecidableEq

/-- Generic single-character splitter (JS `String.prototype.split` with a
one-character separator); `splitOn c [] = [[]]`. -/
def splitOn (sep : Char) : List Char → List (List Char)
  | [] => [[]]
  | c :: t =>
    if c = sep then [] :: splitOn sep t
    else
      match splitOn sep t with
      | [] => [[c]]
      | l :: ls => (c :: l) :: ls

/-- `parsePortList` (verilogParser.js lines 251-255). -/
def parsePortList (portList : List Char) : List String :=
  ((splitOn ',' portList).map (fun p => trimChars p)).filterMap fun p =>
    if p.isEmpty then none else some ⟨p⟩

/-- Split the text before the first occurrence of `pat` from the text after it. -/
def splitAtSub (pat : List Char) : List Char → Option (List Char × List Char)
  | [] => none
  | c :: t =>
    if pat.isPrefixOf (c :: t) then some ([], (c :: t).drop pat.length)
    else
      match splitAtSub pat t with
      | some (before, after) => some (c :: before, after)
      | none => none

/-- `extractModuleParameters` (verilogParser.js lines 258-266): match
`/#\s*\(([^)]*)\)/` anywhere in the module's full match text, split the capture on
`,`, and split each piece at its first `=`. -/
def hashGroupAt (cs : List Char) : Option (List Char) :=
  match cs with
  | '#' :: r1 =>
    match r1.dropWhile jsSpace with
    | '(' :: r2 =>
      let inner := r2.takeWhile (fun c => c ≠ ')')
      match r2.drop inner.length with
      | ')' :: _ => some inner
      | _ => none
    | _ => none
  | _ => none

/-- Leftmost match of `/#\s*\(([^)]*)\)/`. -/
def findHashGroup : List Char → Option (List Char)
  | [] => none
  | c :: t =>
    match hashGroupAt (c :: t) with
    | some inner => some inner
    | none => findHashGroup t

/-- `extractModuleParameters` applied to a full module match. -/
def extractModuleParameters (fullMatch : List Char) : List ModParam :=
  match findHashGroup fullMatch with
  | none => []
  | some inner =>
    (splitOn ',' inner).map fun p =>
      let pieces := (splitOn '=' p).map trimChars
      { name := ⟨pieces.headD []⟩,
        value := match pieces with
                 | _ :: v :: _ => some ⟨v⟩
                 | _ => none }

/-- Attempt the module pattern at the start of `cs`: returns
(name, portlist, body, rest, consumed length). -/
def tryMatchModule (cs : List Char) : Option (String × List Char × List Char × List Char) :=
  if "module".data.isPrefixOf cs then
    let r1 := cs.drop 6
    let ws := r1.takeWhile jsSpace
    if ws.isEmpty then none
    else
      let r2 := r1.drop ws.length
      let nm := r2.takeWhile wordChar
      if nm.isEmpty then none
      else
        let r3 := (r2.drop nm.length).dropWhile jsSpace
        let afterHash :=
          match r3 with
          | '#' :: r4 =>
            match r4.dropWhile jsSpace with
            | '(' :: r5 =>
              let inner := r5.takeWhile (fun c => c ≠ ')')
              match r5.drop inner.length with
              | ')' :: r6 => some r6
              | _ => none
            | _ => none
          | _ => some r3
        match afterHash with
        | none => none
        | some r7 =>
          match r7.dropWhile jsSpace with
          | '(' :: r8 =>
            let portList := r8.takeWhile (fun c => c ≠ ')')
            match r8.drop portList.length with
            | ')' :: r9 =>
              match r9.dropWhile jsSpace with
              | ';' :: r10 =>
                match splitAtSub "endmodule".data r10 with
                | some (body, rest) => some (⟨nm⟩, portList, body, rest)
                | none => none
              | _ => none
            | _ => none
          | _ => none
  else none

/-- The `exec` loop for `extractModules`; tracks the match's start offset and end
offset (for `line_start`/`line_end`). -/
def moduleScan : Nat → List Char → Nat → List (String × List Char × List Char × Nat × Nat)
  | 0, _, _ => []
  | fuel + 1, cs, off =>
    match cs with
    | [] => []
    | c :: t =>
      match tryMatchModule (c :: t) with
      | some (nm, portList, body, rest) =>
        let len := (c :: t).length - rest.length
        (nm, portList, body, off, off + len) :: moduleScan fuel rest (off + len)
      | none => moduleScan fuel t (off + 1)

/-- `extractModules` from verilogParser.js.  The full match text (used by
`extractModuleParameters`) is recovered from the offsets. -/
def extractModules (code : String) : List Module :=
  (moduleScan (code.data.length + 1) code.data 0).map fun m =>
    { name := m.1, ports := parsePortList m.2.1, body := ⟨trimChars m.2.2.1⟩,
      line_start := findLineNumber code.data m.2.2.2.1,
      line_end := findLineNumber code.data m.2.2.2.2,
      parameters := extractModuleParameters
        ((code.data.drop m.2.2.2.1).take (m.2.2.2.2 - m.2.2.2.1)) }

/-! ## Syntax checking

`checkSyntax` (verilogParser.js lines 351-419): a single pass over the lines keeps
running totals of `(`/`)`, `[`/`]` and word-token `begin`/`end` imbalances, emits
per-line `missing_semicolon`/`incomplete_if` findings, and finally emits one
`unbalanced_*` finding per non-zero counter, carrying direction and magnitude. -/

structure SyntaxErr where
  type : String
  line : Option Nat
  message : String
  deriving DecidableEq

/-- `line.match(/^\s*(assign|wire|reg|input|output)/)` — note: no trailing word
boundary, so e.g. a line starting with `inputs` also matches. -/
def startsKwAfterWS (l : List Char) : Bool :=
  ["assign", "wire", "reg", "input", "output"].any
    (fun k => k.data.isPrefixOf (l.dropWhile jsSpace))

/-- `s.trim().endsWith(';')`-style test. -/
def endsWithCh (c : Char) (cs : List Char) : Bool :=
  match cs.getLast? with
  | some d => d = c
  | none => false

/-- The per-line findings of `checkSyntax`; `next` is the following line, if any
(the `incomplete_if` heuristic looks one line ahead; a `nextLine` that is the empty
string is falsy in JS and so never reported). -/
def syntaxLineErrs (l : String) (next : Option String) (lineNum : Nat) : List SyntaxErr :=
  (if startsKwAfterWS l.data && !sIncludes l ";" && !sIncludes l "(" then
    [⟨"missing_semicolon", some lineNum, "Missing semicolon at end of statement"⟩]
  else []) ++
  (if sIncludes l "if" && !sIncludes l "begin" &&
      !(match next with
        | some nl => "begin".data.isPrefixOf (jsTrim nl).data
        | none => false) then
    match next with
    | some nl =>
      if nl ≠ "" && !sIncludes nl "else" && !endsWithCh ';' (jsTrim nl).data then
        [⟨"incomplete_if", some lineNum, "Incomplete if statement may infer latch"⟩]
      else []
    | none => []
  else [])

/-- The line loop of `checkSyntax`: emitted findings plus final delimiter counters. -/
def checkSyntaxGo : List String → Nat → Int → Int → Int → List SyntaxErr × Int × Int × Int
  | [], _, p, b, g => ([], p, b, g)
  | l :: rest, idx, p, b, g =>
    let p1 := p + (countCh '(' l.data : Int) - (countCh ')' l.data : Int)
    let b1 := b + (countCh '[' l.data : Int) - (countCh ']' l.data : Int)
    let g1 := g + (countWordTok "begin".data l.data : Int) - (countWordTok "end".data l.data : Int)
    let errs := syntaxLineErrs l rest.head? (idx + 1)
    let r := checkSyntaxGo rest (idx + 1) p1 b1 g1
    (errs ++ r.1, r.2)

/-- The final `unbalanced_*` finding for one counter; `label` is the delimiter name
after "Unbalanced " and `tail` the words after the magnitude (`closing parentheses`,
`closing brackets`, `end statements`). -/
def unbalancedErr (count : Int) (type label tail : String) : List SyntaxErr :=
  if count ≠ 0 then
    [⟨type, none,
      "Unbalanced " ++ label ++ ": " ++ (if count > 0 then "missing" else "extra") ++ " " ++
        toString count.natAbs ++ " " ++ tail⟩]
  else []

/-- `checkSyntax` from verilogParser.js. -/
def checkSyntax (code : String) : List SyntaxErr :=
  let r := checkSyntaxGo (splitLines code) 0 0 0 0
  r.1 ++ unbalancedErr r.2.1 "unbalanced_parentheses" "parentheses" "closing parentheses" ++
    unbalancedErr r.2.2.1 "unbalanced_brackets" "brackets" "closing brackets" ++
    unbalancedErr r.2.2.2 "unbalanced_begin_end" "begin/end" "end statements"

/-- `classifyAlwaysBlock` (verilogParser.js lines 286-293).  The `body` parameter is
accepted and ignored, as in the source. -/
def classifyAlwaysBlock (sensitivity : String) (_body : String) : String :=
  if sIncludes sensitivity "posedge" || sIncludes sensitivity "negedge" then "sequential"
  else if sIncludes sensitivity "*" || sIncludes sensitivity "or" then "combinational"
  else "unknown"

/-- The result of `parseVerilogCode` (verilogParser.js lines 27-52).  The source also
returns `instances`, `always_blocks`, `statistics` and `complexity`; those fields are
referenced by no claim and are not modelled.  The `catch` branch of the source is
unreachable here: every embedded operation is total, so `success` is always `true`.
Every sub-extractor is applied to the raw `code` — `removeComments` is used only
inside `tokenize` (which feeds `statistics`). -/
structure ParseResult where
  success : Bool
  modules : List Module
  ports : List Port
  signals : List Signal
  assignments : List Assignment
  parameters : List Parameter
  syntax_errors : List SyntaxErr

/-- `parseVerilogCode` from verilogParser.js. -/
def parseVerilogCode (code : String) : ParseResult :=
  { success := true
    modules := extractModules code
    ports := extractPorts code
    signals := extractSignals code
    assignments := extractAssignments code
    parameters := extractParameters code
    syntax_errors := checkSyntax code }

/-! ## The synthesis linter (`src/unnamed/part_000`)

`checkCombinationalLogic` (lines 110-167) walks the lines with three pieces of
state: whether an `always @(*` block is open, and whether an `else`/`default`
has been seen since the block opened.  On a line that trims to exactly `end`
while a block is open and neither flag is set, it looks back up to 20 lines for
an `if`/`case` and reports `inferred_latch` at the `end` line.  Independently it
reports `combinational_loop` for an `assign lhs = ...` whose line contains the
`lhs` identifier at two distinct positions. -/

structure LintIssue where
  line : Nat
  severity : String
  rule : String
  message : String
  suggestion : String
  deriving DecidableEq

/-- Does `/always\s*@\s*\(\*/` match starting exactly at `cs`? -/
def alwaysStarAt (cs : List Char) : Bool :=
  "always".data.isPrefixOf cs &&
    (match (cs.drop 6).dropWhile jsSpace with
     | '@' :: r2 =>
       match r2.dropWhile jsSpace with
       | '(' :: '*' :: _ => true
       | _ => false
     | _ => false)

/-- Unanchored test of `/always\s*@\s*\(\*/` (JS `String.prototype.match` as a
boolean). -/
def matchAlwaysStar : List Char → Bool
  | [] => false
  | c :: t => alwaysStarAt (c :: t) || matchAlwaysStar t

/-- Leftmost match of `/assign\s+(\w+)\s*=/`, returning the `\w+` capture. -/
def assignLhsAt (cs : List Char) : Option (List Char) :=
  if "assign".data.isPrefixOf cs then
    let r1 := cs.drop 6
    let ws := r1.takeWhile jsSpace
    if ws.isEmpty then none
    else
      let r2 := r1.drop ws.length
      let nm := r2.takeWhile wordChar
      if nm.isEmpty then none
      else
        match (r2.drop nm.length).dropWhile jsSpace with
        | '=' :: _ => some nm
        | _ => none
  else none

/-- Scan for the leftmost `/assign\s+(\w+)\s*=/` match. -/
def findAssignLhs : List Char → Option (List Char)
  | [] => none
  | c :: t =>
    match assignLhsAt (c :: t) with
    | some nm => some nm
    | none => findAssignLhs t

/-- Number of (possibly overlapping) occurrence positions of `pat`;
`line.indexOf(lhs) !== line.lastIndexOf(lhs)` iff this is at least `2`. -/
def countSubOcc (pat : List Char) : List Char → Nat
  | [] => 0
  | c :: t => (if pat.isPrefixOf (c :: t) then 1 else 0) + countSubOcc pat t

/-- The `combinational_loop` part of one line's processing: an
`assign lhs = ...` on the trimmed line whose raw line contains the `lhs`
identifier at two distinct positions. -/
def combLoopIssues (trimmed l : String) (idx : Nat) : List LintIssue :=
  match findAssignLhs trimmed.data with
  | some nm =>
    if 2 ≤ countSubOcc nm l.data then
      [⟨idx + 1, "error", "combinational_loop",
        "Potential combinational loop with signal " ++ (⟨nm⟩ : String),
        "Break the feedback path or use registers"⟩]
    else []
  | none => []

/-- The `inferred_latch` finding emitted at a closing `end` line: look back up to 20
lines for an `if`/`case`. -/
def latchIssuesAt (lines : List String) (idx : Nat) : List LintIssue :=
  let blockLines := (lines.take idx).drop (idx - 20)
  if blockLines.any (fun bl => sIncludes bl "if") ||
      blockLines.any (fun bl => sIncludes bl "case") then
    [⟨idx + 1, "error", "inferred_latch", "Incomplete if/case statement may infer latch",
      "Add else clause or default assignment"⟩]
  else []

/-- The line loop of `checkCombinationalLogic`; `lines` is the full line array (the
20-line look-back slices it), `rem` the remaining lines, `idx` the current index.
The source's nested `if (trimmed === 'end' && inAlwaysBlock)` /
`if (inAlwaysBlock && !hasElse && !hasDefault)` tests are flattened into one
condition (the inner `inAlwaysBlock` re-test is redundant: the flag is unchanged
between the two tests). -/
def checkCombGo (lines : List String) : List String → Nat → Bool → Bool → Bool → List LintIssue
  | [], _, _, _, _ => []
  | l :: rem, idx, inAlw0, hasElse0, hasDef0 =>
    let trimmed := jsTrim l
    let isStart := matchAlwaysStar trimmed.data
    let inAlw := isStart || inAlw0
    let hasElse := if isStart then false else hasElse0
    let hasDef := if isStart then false else hasDef0
    let latch :=
      if trimmed == "end" && inAlw && !hasElse && !hasDef then latchIssuesAt lines idx
      else []
    let inAlw1 := if trimmed == "end" then false else inAlw
    let hasElse1 := hasElse || sIncludes trimmed "else"
    let hasDef1 := hasDef || sIncludes trimmed "default"
    latch ++ combLoopIssues trimmed l idx ++
      checkCombGo lines rem (idx + 1) inAlw1 hasElse1 hasDef1

/-- `checkCombinationalLogic` from the synthesis linter, over pre-split lines (as
`lintVerilogCode` calls it). -/
def checkCombinationalLogic (lines : List String) : List LintIssue :=
  checkCombGo lines lines 0 false false false

theorem sample_inferred_latch :
    checkCombinationalLogic ["always @(*) begin", "if (sel) out = a;", "end"] =
      [⟨3, "error", "inferred_latch", "Incomplete if/case statement may infer latch",
        "Add else clause or default assignment"⟩] := by decide

theorem sample_unbalanced : checkSyntax "module top(a);\ninput a;\nassign x = (a + b;\nendmodule\n" =
    [⟨"unbalanced_parentheses", none,
      "Unbalanced parentheses: missing 1 closing parentheses"⟩] := by decide

theorem sample_classify_color : classifyAlwaysBlock "color" "" = "combinational" := by decide

/-! ## The estimation engine (`fpgaCalculations.js`)

JavaScript numbers are embedded as `ℝ` (`Math.pow` as `Real.rpow`, `Math.sqrt` as
`Real.sqrt`, `Math.log2` as `Real.logb 2`, `Math.ceil` as `Int.ceil`).  The final
`parseFloat(x.toFixed(k))` display rounding of `calculateTiming`/`calculatePower` is
a decimal formatting step on binary floats and is not modelled; every claim concerns
the computed quantities.  JS `NaN`/`Infinity` propagation (e.g. a memory resource
formula invoked without `depth`, or `width ≤ 0` under `Math.log2`) has no `ℝ`
counterpart; no claim touches those inputs. -/

noncomputable section

open scoped Classical

/-- One entry of `this.deviceSpecs` (fpgaCalculations.js lines 9-75). -/
structure DeviceSpec where
  family : String
  lut_delay : ℝ
  ff_delay : ℝ
  carry_delay : ℝ
  routing_delay_factor : ℝ
  power_base : ℝ
  power_per_lut : ℝ
  power_per_ff : ℝ
  max_frequency : ℝ
  temperature_factor : ℝ
  voltage_factor : ℝ

def artix7 : DeviceSpec :=
  ⟨"Xilinx 7-Series", 0.124, 0.058, 0.035, 0.6, 150, 0.05, 0.02, 450, 1.1, 1.8⟩

def kintex7 : DeviceSpec :=
  ⟨"Xilinx 7-Series", 0.112, 0.052, 0.032, 0.55, 800, 0.045, 0.018, 500, 1.1, 1.8⟩

def zynq7020 : DeviceSpec :=
  ⟨"Xilinx Zynq", 0.118, 0.055, 0.033, 0.58, 400, 0.048, 0.019, 450, 1.1, 1.8⟩

def cycloneV : DeviceSpec :=
  ⟨"Intel/Altera", 0.134, 0.062, 0.038, 0.65, 200, 0.052, 0.021, 400, 1.12, 1.9⟩

def stratix10 : DeviceSpec :=
  ⟨"Intel/Altera", 0.089, 0.042, 0.025, 0.45, 2000, 0.035, 0.015, 600, 1.08, 1.7⟩

/-- `this.deviceSpecs[device]` — the object-key lookup of the device catalog. -/
def deviceSpecs (device : String) : Option DeviceSpec :=
  if device = "Artix-7" then some artix7
  else if device = "Kintex-7" then some kintex7
  else if device = "Zynq-7020" then some zynq7020
  else if device = "Cyclone-V" then some cycloneV
  else if device = "Stratix-10" then some stratix10
  else none

/-- One entry of `this.designPatterns`.  Each formula field takes two arguments,
standing for the JS function's first and second formal parameter; the adder and
multiplier formulas are unary in the source (they ignore the second argument), the
memory formulas take `(depth, width)`.  At the JS one-argument call sites (used
whenever `component !== 'memory' || !depth`) the missing second argument is passed as
the placeholder `0`; every formula reached through such a call ignores its second
parameter, except the memory `lut_usage`/`ff_usage`, whose one-argument JS call would
produce `NaN` and is outside every claim. -/
structure Pattern where
  delay_formula : ℝ → ℝ → ℝ
  lut_usage : ℝ → ℝ → ℝ
  ff_usage : ℝ → ℝ → ℝ
  description : String

/-- `this.designPatterns[component][architecture]` (fpgaCalculations.js
lines 78-133). -/
def designPatterns (component architecture : String) : Option Pattern :=
  if component = "adder" then
    if architecture = "ripple_carry" then
      some ⟨fun w _ => w * 0.125, fun w _ => w, fun w _ => w + 1, "Linear delay with bit width"⟩
    else if architecture = "carry_lookahead" then
      some ⟨fun w _ => Real.logb 2 w * 0.3 + 0.5, fun w _ => w * 1.5, fun w _ => w + 1,
        "Logarithmic delay, more LUTs"⟩
    else if architecture = "carry_select" then
      some ⟨fun w _ => Real.sqrt w * 0.4 + 0.8, fun w _ => w * 2.2, fun w _ => w + 1,
        "Square root delay scaling"⟩
    else none
  else if component = "multiplier" then
    if architecture = "array" then
      some ⟨fun w _ => w * 0.2, fun w _ => w * w * 0.8, fun w _ => w * 2,
        "Linear delay, quadratic area"⟩
    else if architecture = "booth" then
      some ⟨fun w _ => w * 0.15 + 1.0, fun w _ => w * w * 0.6, fun w _ => w * 1.5,
        "Optimized for signed multiplication"⟩
    else if architecture = "wallace_tree" then
      some ⟨fun w _ => Real.logb 2 w * 1.2 + 2.5, fun w _ => w * w * 1.1, fun w _ => w * 2.5,
        "Fast but resource intensive"⟩
    else none
  else if component = "memory" then
    if architecture = "distributed" then
      some ⟨fun d _ => 0.8 + Real.logb 2 d * 0.1, fun d w => d * w / 32, fun _ _ => 0,
        "Uses LUT RAM"⟩
    else if architecture = "block_ram" then
      some ⟨fun _ _ => 2.5, fun _ w => ((⌈w / 8⌉ : ℤ) : ℝ) * 2, fun _ w => w * 2,
        "Dedicated BRAM blocks"⟩
    else none
  else none

/-- JS truthiness of an optional number (`null` and `0` are falsy; `NaN` is not
modelled). -/
def optTruthy (o : Option ℝ) : Prop :=
  match o with
  | some x => x ≠ 0
  | none => False

/-- The numeric value of an optional number (only read under `optTruthy`). -/
def optVal (o : Option ℝ) : ℝ :=
  match o with
  | some x => x
  | none => 0

/-- `getSpeedGradeFactor` (fpgaCalculations.js lines 600-607); the source keys the
table by `speedGrade.toString()`, which for integer speed grades is this function. -/
def getSpeedGradeFactor (g : Int) : ℝ :=
  if g = -1 then 1.0 else if g = -2 then 0.85 else if g = -3 then 0.75 else 1.0

/-- The destructured config of `calculateTiming` with its source defaults
(fpgaCalculations.js lines 139-150). -/
structure TimingConfig where
  device : String := "Artix-7"
  component : String := "adder"
  architecture : String := "ripple_carry"
  width : ℝ := 8
  depth : Option ℝ := none
  logic_levels : Option ℝ := none
  fanout : ℝ := 4
  temperature : ℝ := 25
  voltage : ℝ := 1.0
  speed_grade : Int := -1

/-- `logic_levels || Math.ceil(Math.log2(width))`. -/
def levelsOf (cfg : TimingConfig) : ℝ :=
  match cfg.logic_levels with
  | some l => if l = 0 then ((⌈Real.logb 2 cfg.width⌉ : ℤ) : ℝ) else l
  | none => ((⌈Real.logb 2 cfg.width⌉ : ℤ) : ℝ)

structure CriticalPath where
  levels : ℝ
  fanout : ℝ
  bottleneck : String

structure TimingResult where
  logic_delay : ℝ
  routing_delay : ℝ
  total_delay : ℝ
  max_frequency : ℝ
  setup_slack : ℝ
  hold_slack : ℝ
  critical_path : CriticalPath

/-- `calculateTiming` (fpgaCalculations.js lines 137-203); the unknown-device throw
(re-wrapped by the surrounding `catch`) is the `Except.error` case. -/
def calculateTiming (cfg : TimingConfig) : Except String TimingResult :=
  match deviceSpecs cfg.device with
  | none => .error ("Timing calculation failed: Unsupported device: " ++ cfg.device)
  | some ds =>
    let logicDelay :=
      match designPatterns cfg.component cfg.architecture with
      | some p =>
        if cfg.component = "memory" ∧ optTruthy cfg.depth then
          p.delay_formula (optVal cfg.depth) cfg.width
        else p.delay_formula cfg.width 0
      | none => levelsOf cfg * ds.lut_delay
    let routingDelay := logicDelay * ds.routing_delay_factor * Real.sqrt cfg.fanout
    let tempFactor := ds.temperature_factor ^ ((cfg.temperature - 25) / 10)
    let speedFactor := getSpeedGradeFactor cfg.speed_grade
    let totalDelay := (logicDelay + routingDelay) * tempFactor * speedFactor
    let maxFrequency := min (1000 / totalDelay) ds.max_frequency
    let targetPeriod : ℝ := 10.0
    .ok { logic_delay := logicDelay, routing_delay := routingDelay, total_delay := totalDelay,
          max_frequency := maxFrequency, setup_slack := targetPeriod - totalDelay,
          hold_slack := 0.5,
          critical_path := { levels := levelsOf cfg, fanout := cfg.fanout,
                             bottleneck := if logicDelay > routingDelay then "logic"
                                           else "routing" } }

/-- The destructured config of `calculateResources` with its source defaults
(fpgaCalculations.js lines 208-215). -/
structure ResourceConfig where
  device : String := "Artix-7"
  component : String := "adder"
  architecture : String := "ripple_carry"
  width : ℝ := 8
  depth : Option ℝ := none
  instances : ℝ := 1

structure ResourceResult where
  luts : ℤ
  ffs : ℤ
  brams : ℤ
  dsps : ℤ
  ios : ℤ
  total_equivalent_luts : ℤ

/-- `calculateResources` (fpgaCalculations.js lines 206-268).  The source mutates
`lutUsage`/`ffUsage`/`bramUsage`/`dspUsage` sequentially; the per-variable `match`es
below reproduce exactly the same values.  Note: the device name is never consulted —
there is no catalog lookup and no throw on this path, so the function is total. -/
def calculateResources (cfg : ResourceConfig) : ResourceResult :=
  let pat := designPatterns cfg.component cfg.architecture
  let memHit : Prop := cfg.component = "memory" ∧ optTruthy cfg.depth
  let mulHit : Prop := cfg.component = "multiplier" ∧ 8 ≤ cfg.width
  let lutUsage0 : ℝ :=
    match pat with
    | some p => if memHit then p.lut_usage (optVal cfg.depth) cfg.width else p.lut_usage cfg.width 0
    | none => cfg.width * 2
  let ffUsage : ℝ :=
    match pat with
    | some p => if memHit then p.ff_usage (optVal cfg.depth) cfg.width else p.ff_usage cfg.width 0
    | none => cfg.width
  let bramUsage : ℝ :=
    match pat with
    | some _ =>
      if memHit ∧ cfg.architecture = "block_ram" then
        ((⌈optVal cfg.depth * cfg.width / (512 * 36)⌉ : ℤ) : ℝ)
      else 0
    | none => 0
  let dspUsage : ℝ :=
    match pat with
    | some _ => if mulHit then ((⌈cfg.width / 18⌉ : ℤ) : ℝ) else 0
    | none => 0
  let lutUsage : ℝ :=
    match pat with
    | some _ => if mulHit then lutUsage0 * 0.3 else lutUsage0
    | none => lutUsage0
  let lutF := lutUsage * cfg.instances
  let ffF := ffUsage * cfg.instances
  let bramF := bramUsage * cfg.instances
  let dspF := dspUsage * cfg.instances
  let ioUsage : ℝ := cfg.width * 2 + 3
  { luts := ⌈lutF⌉, ffs := ⌈ffF⌉, brams := ⌈bramF⌉, dsps := ⌈dspF⌉, ios := ⌈ioUsage⌉,
    total_equivalent_luts := ⌈lutF + ffF * 0.5 + bramF * 10 + dspF * 5⌉ }

/-- The `utilization` sub-object of the power config (absent fields are `|| 0`
defaulted by the source). -/
structure Utilization where
  luts : Option ℝ := none
  ffs : Option ℝ := none
  ios : Option ℝ := none

/-- `x || 0` on an optional number (for `some 0` both sides give `0`). -/
def orZero (o : Option ℝ) : ℝ := o.getD 0

/-- The destructured config of `calculatePower` with its source defaults
(fpgaCalculations.js lines 273-280). -/
structure PowerConfig where
  device : String := "Artix-7"
  frequency : ℝ := 100
  toggle_rate : ℝ := 0.25
  voltage : ℝ := 1.0
  temperature : ℝ := 25
  utilization : Utilization := {}

structure PowerBreakdown where
  logic_power : ℝ
  ff_power : ℝ
  clock_power : ℝ
  io_power : ℝ

structure PowerResult where
  static_power : ℝ
  dynamic_power : ℝ
  total_power : ℝ
  breakdown : PowerBreakdown
  efficiency : ℝ
  thermal_design_power : ℝ

/-- `calculatePower` (fpgaCalculations.js lines 271-320). -/
def calculatePower (cfg : PowerConfig) : Except String PowerResult :=
  match deviceSpecs cfg.device with
  | none => .error ("Power calculation failed: Unsupported device: " ++ cfg.device)
  | some ds =>
    let resources := orZero cfg.utilization.luts
    let ffs := orZero cfg.utilization.ffs
    let tempFactor := ds.temperature_factor ^ ((cfg.temperature - 25) / 10)
    let voltageFactor := cfg.voltage ^ ds.voltage_factor
    let staticPower := ds.power_base * tempFactor * voltageFactor
    let lutSwitchingPower := resources * ds.power_per_lut * cfg.frequency * cfg.toggle_rate
    let ffSwitchingPower := ffs * ds.power_per_ff * cfg.frequency * cfg.toggle_rate
    let clockPower := cfg.frequency * 0.1
    let ioPower := orZero cfg.utilization.ios * 0.5
    let dynamicPower := lutSwitchingPower + ffSwitchingPower + clockPower + ioPower
    let totalPower := staticPower + dynamicPower
    .ok { static_power := staticPower, dynamic_power := dynamicPower,
          total_power := totalPower,
          breakdown := ⟨lutSwitchingPower, ffSwitchingPower, clockPower, ioPower⟩,
          efficiency := cfg.frequency / totalPower,
          thermal_design_power := totalPower * 1.3 }

end

theorem sample_commented_port : extractPorts "// input a;" = [⟨"a", "input", 1, 0, 0, 1⟩] := by
  decide

theorem sample_ports : extractPorts "input [7:0] a;\noutput b;\n" =
    [⟨"a", "input", 8, 7, 0, 1⟩, ⟨"b", "output", 1, 0, 0, 2⟩] := by decide

theorem sample_signals : extractSignals "wire [3:0] x, y;" =
    [⟨"x", "wire", 4, 3, 0, 1⟩, ⟨"y", "wire", 4, 3, 0, 1⟩] := by decide

theorem sample_line_comment : removeComments "// input a;" = "" := by decide

theorem sample_block_comment : removeComments "a /* b\n c */ d // e\nf" = "a  d \nf" := by
  decide

theorem sample_assignment : extractAssignments "assign x = (a + b;" =
    [⟨"x", "(a + b", 1, calculateExpressionComplexity "(a + b".data⟩] := rfl

theorem sample_complexity : calculateExpressionComplexity "(a + b".data = 3 / 2 := by
  simp +decide [calculateExpressionComplexity, opChars, countCh]
  norm_num

theorem sample_module :
    extractModules "module top(a, b);\ninput a;\noutput b;\nassign x = (a + b;\nendmodule\n" =
    [⟨"top", ["a", "b"], "input a;\noutput b;\nassign x = (a + b;", 1, 5, []⟩] := by decide

theorem sample_parameter : extractParameters "parameter WIDTH = 8;" = [⟨"WIDTH", "parameter", "8", 1⟩] := by
  decide

/-! ## Claims -/

/-- The malformed input of claim **C7**: a well-formed module whose `assign` line
has an unclosed parenthesis. -/
def c7Input : String :=
  "module top(a, b);\ninput a;\noutput b;\nassign x = (a + b;\nendmodule\n"

/-- **C9**: `parseVerilogCode` applied twice to identical text yields equal results,
and the three estimators applied twice to identical arguments return identical
results.  In this embedding every one of these operations is a pure function of its
arguments (the two static catalogs are fixed definitions); there is no state, RNG or
clock anywhere in the translated code, so determinism holds definitionally. -/
theorem extract_estimate_deterministic :
    ∀ (code : String) (ct : TimingConfig) (cr : ResourceConfig) (cp : PowerConfig),
      parseVerilogCode code = parseVerilogCode code ∧
      calculateTiming ct = calculateTiming ct ∧
      calculateResources cr = calculateResources cr ∧
      calculatePower cp = calculatePower cp :=
  fun _ _ _ _ => ⟨rfl, rfl, rfl, rfl⟩

/-- **C10**: `classifyAlwaysBlock` returns `"sequential"` whenever the sensitivity
list contains `posedge` or `negedge` (taking precedence over the combinational
test); with no edge keyword it returns `"combinational"` when the list contains `*`
or the two-character substring `or` anywhere (e.g. inside `color`); otherwise
`"unknown"`. -/
theorem classifyAlwaysBlock_spec :
    ∀ s b : String,
      ((sIncludes s "posedge" = true ∨ sIncludes s "negedge" = true) →
        classifyAlwaysBlock s b = "sequential") ∧
      (sIncludes s "posedge" = false → sIncludes s "negedge" = false →
        (sIncludes s "*" = true ∨ sIncludes s "or" = true) →
        classifyAlwaysBlock s b = "combinational") ∧
      (sIncludes s "posedge" = false → sIncludes s "negedge" = false →
        sIncludes s "*" = false → sIncludes s "or" = false →
        classifyAlwaysBlock s b = "unknown") := by
  intro s b
  refine ⟨fun h => ?_, fun h1 h2 h3 => ?_, fun h1 h2 h3 h4 => ?_⟩ <;>
    simp only [classifyAlwaysBlock]
  · rcases h with h | h <;> simp [h]
  · rcases h3 with h3 | h3 <;> simp [h1, h2, h3]
  · simp [h1, h2, h3, h4]

/-- Witness for **C10** at concrete sensitivity lists: an edge keyword wins even
next to `or`; `color` contains `or` and is classified combinational; a plain
signal name is unknown. -/
theorem classifyAlwaysBlock_spec_witness :
    classifyAlwaysBlock "posedge clk or a" "" = "sequential" ∧
    classifyAlwaysBlock "color" "" = "combinational" ∧
    classifyAlwaysBlock "x" "" = "unknown" :=
  ⟨(classifyAlwaysBlock_spec "posedge clk or a" "").1 (Or.inl (by decide)),
   (classifyAlwaysBlock_spec "color" "").2.1 (by decide) (by decide) (Or.inr (by decide)),
   (classifyAlwaysBlock_spec "x" "").2.2 (by decide) (by decide) (by decide) (by decide)⟩

/-- **C2** (counterexample).  The claim says comment-stripped text is reused by every
sub-extractor, so a construct appearing only inside a comment never produces an
entry.  In the source, `parseVerilogCode` hands the raw text to every sub-extractor
(`removeComments` is applied only inside `tokenize`): the input `"// input a;"`
consists of a single line comment, yet a `Port` entry is extracted; on the
comment-stripped text no port is found. -/
theorem commented_port_extracted :
    (parseVerilogCode "// input a;").ports = [⟨"a", "input", 1, 0, 0, 1⟩] ∧
    removeComments "// input a;" = "" ∧
    extractPorts (removeComments "// input a;") = [] := by
  refine ⟨by decide, by decide, by decide⟩

/-- **C2** (amended): comments are stripped by `removeComments` only inside the
tokenizer; every sub-extractor of `parseVerilogCode` scans the raw input text, so a
construct that appears only inside a comment can produce an entry in the returned
model (witnessed by `"// input a;"`). -/
theorem extractors_use_raw_text :
    (∀ code : String,
      (parseVerilogCode code).ports = extractPorts code ∧
      (parseVerilogCode code).signals = extractSignals code ∧
      (parseVerilogCode code).assignments = extractAssignments code ∧
      (parseVerilogCode code).parameters = extractParameters code ∧
      (parseVerilogCode code).modules = extractModules code) ∧
    extractPorts "// input a;" ≠ extractPorts (removeComments "// input a;") :=
  ⟨fun _ => ⟨rfl, rfl, rfl, rfl, rfl⟩, by decide⟩

/-- **C1** (counterexample).  The claim says each of the three estimators fails with
an explicit unknown-device error and populates no result for
`device:"Nonexistent-9000"`.  `calculateResources` never consults the device
catalog: with that device and all other parameters at their defaults it returns a
fully populated resource record. -/
theorem calculateResources_unknown_device_populates :
    calculateResources { device := "Nonexistent-9000" } =
      { luts := 8, ffs := 9, brams := 0, dsps := 0, ios := 19,
        total_equivalent_luts := 13 } := by
  have hmem : ¬(("adder" : String) = "memory" ∧ optTruthy (none : Option ℝ)) := by
    rintro ⟨h, -⟩; exact absurd h (by decide)
  have hmul : ¬(("adder" : String) = "multiplier" ∧ (8 : ℝ) ≤ 8) := by
    rintro ⟨h, -⟩; exact absurd h (by decide)
  rw [show calculateResources { device := "Nonexistent-9000" } =
        calculateResources { device := "Nonexistent-9000", component := "adder",
                             architecture := "ripple_carry", width := 8, depth := none,
                             instances := 1 } from rfl]
  unfold calculateResources
  rw [show designPatterns "adder" "ripple_carry" =
        some ⟨fun w _ => w * 0.125, fun w _ => w, fun w _ => w + 1,
          "Linear delay with bit width"⟩ from rfl]
  simp only [if_neg hmem, if_neg hmul,
    if_neg (fun h : ("adder" = "memory" ∧ optTruthy none) ∧ "ripple_carry" = "block_ram" =>
      hmem h.1),
    ResourceResult.mk.injEq]
  norm_num
  rw [Int.ceil_eq_iff] ; norm_num

/-- **C1** (amended): for every config whose device is absent from the device
catalog, `calculateTiming` and `calculatePower` fail with the explicit
unknown-device error and return no result; `calculateResources` never consults the
device catalog — its result is independent of the device name, and it returns a
fully populated record even for an unknown device
(`calculateResources_unknown_device_populates`). -/
theorem unknown_device_error_timing_power_only :
    (∀ ct : TimingConfig, deviceSpecs ct.device = none →
      calculateTiming ct =
        .error ("Timing calculation failed: Unsupported device: " ++ ct.device)) ∧
    (∀ cp : PowerConfig, deviceSpecs cp.device = none →
      calculatePower cp =
        .error ("Power calculation failed: Unsupported device: " ++ cp.device)) ∧
    (∀ (cr : ResourceConfig) (d : String),
      calculateResources { cr with device := d } = calculateResources cr) := by
  refine ⟨fun ct h => ?_, fun cp h => ?_, fun cr d => rfl⟩
  · unfold calculateTiming; rw [h]
  · unfold calculatePower; rw [h]

/-- Witness for **C1** at `device:"Nonexistent-9000"`: the device is absent from the
catalog and both lookups fail with the explicit error. -/
theorem unknown_device_error_timing_power_only_witness :
    deviceSpecs "Nonexistent-9000" = none ∧
    calculateTiming { device := "Nonexistent-9000" } =
      .error "Timing calculation failed: Unsupported device: Nonexistent-9000" ∧
    calculatePower { device := "Nonexistent-9000" } =
      .error "Power calculation failed: Unsupported device: Nonexistent-9000" :=
  ⟨rfl, unknown_device_error_timing_power_only.1 { device := "Nonexistent-9000" } rfl,
    unknown_device_error_timing_power_only.2.1 { device := "Nonexistent-9000" } rfl⟩

/-- **C3** (counterexample).  The claim says that for `componentKind:"multiplier",
width:32` the result has `dsps ≥ 1` and strictly fewer `luts` than the generic
no-architecture fallback (`luts = width*2 = 64`).  With a registered multiplier
architecture (`array`) the DSP path fires (`dsps = 2`) but the 70%-reduced LUT count
is `⌈32·32·0.8·0.3⌉ = 246`, far above the generic 64; with the *default*
architecture (`ripple_carry`, not registered for multipliers) the call itself goes
through the generic fallback and reassigns nothing (`dsps = 0`). -/
theorem multiplier_luts_not_below_generic :
    (calculateResources { component := "multiplier", architecture := "array",
                          width := 32 }).dsps = 2 ∧
    (calculateResources { component := "multiplier", architecture := "array",
                          width := 32 }).luts = 246 ∧
    (calculateResources { component := "multiplier", width := 32 }).luts = 64 ∧
    (calculateResources { component := "multiplier", width := 32 }).dsps = 0 ∧
    ¬((calculateResources { component := "multiplier", architecture := "array",
                            width := 32 }).luts <
      (calculateResources { component := "multiplier", width := 32 }).luts) := by
  have hmem : ¬(("multiplier" : String) = "memory" ∧ optTruthy (none : Option ℝ)) := by
    rintro ⟨h, -⟩; exact absurd h (by decide)
  have hmul : ("multiplier" : String) = "multiplier" ∧ (8 : ℝ) ≤ 32 := ⟨rfl, by norm_num⟩
  have harr :
      calculateResources { component := "multiplier", architecture := "array",
                           width := 32 } =
        { luts := 246, ffs := 64, brams := 0, dsps := 2, ios := 67,
          total_equivalent_luts := 288 } := by
    unfold calculateResources
    rw [show designPatterns "multiplier" "array" =
          some ⟨fun w _ => w * 0.2, fun w _ => w * w * 0.8, fun w _ => w * 2,
            "Linear delay, quadratic area"⟩ from rfl]
    simp only [if_pos hmul, if_neg hmem,
      if_neg (fun h : (("multiplier" : String) = "memory" ∧ optTruthy (none : Option ℝ)) ∧
          ("array" : String) = "block_ram" => hmem h.1),
      ResourceResult.mk.injEq]
    rw [show ⌈(32 : ℝ) / 18⌉ = 2 by rw [Int.ceil_eq_iff] ; norm_num]
    norm_num
    refine ⟨by rw [Int.ceil_eq_iff] ; norm_num, ?_⟩
    rw [Int.ceil_eq_iff] ; norm_num
  have hgen :
      calculateResources { component := "multiplier", width := 32 } =
        { luts := 64, ffs := 32, brams := 0, dsps := 0, ios := 67,
          total_equivalent_luts := 80 } := by
    unfold calculateResources
    rw [show designPatterns "multiplier" "ripple_carry" = none from rfl]
    simp only [ResourceResult.mk.injEq]
    norm_num
  rw [harr, hgen]
  norm_num

/-- **C3** (amended): for `componentKind = multiplier` with `width ≥ 8` *and a
(componentKind, architecture) pair present in the architecture catalog*,
`calculateResources` reassigns `dsps = ceil(width/18) ≥ 1` and multiplies the
architecture's own LUT formula by 0.3 (a fixed 70% reduction relative to that
formula — not relative to, and not necessarily below, the generic fallback's
`width*2`). -/
theorem multiplier_dsp_absorption (cfg : ResourceConfig) (p : Pattern)
    (hp : designPatterns cfg.component cfg.architecture = some p)
    (hm : cfg.component = "multiplier") (hw : (8 : ℝ) ≤ cfg.width)
    (hi : cfg.instances = 1) :
    (calculateResources cfg).dsps = ⌈cfg.width / 18⌉ ∧
    (calculateResources cfg).luts = ⌈p.lut_usage cfg.width 0 * 0.3⌉ ∧
    1 ≤ (calculateResources cfg).dsps := by
  have hmem : ¬(cfg.component = "memory" ∧ optTruthy cfg.depth) := by
    rintro ⟨h, -⟩; rw [hm] at h; exact absurd h (by decide)
  have hmul : cfg.component = "multiplier" ∧ (8 : ℝ) ≤ cfg.width := ⟨hm, hw⟩
  unfold calculateResources
  rw [hp]
  simp only [if_pos hmul, if_neg hmem,
    if_neg (fun h : (cfg.component = "memory" ∧ optTruthy cfg.depth) ∧
        cfg.architecture = "block_ram" => hmem h.1),
    hi, mul_one, Int.ceil_intCast]
  have h1 : 0 < ⌈cfg.width / 18⌉ := Int.ceil_pos.mpr (by linarith)
  exact ⟨trivial, trivial, by omega⟩

/-- Witness for **C3** (amended) at `architecture:"booth", width:32`: the pair is in
the catalog, the width bound holds, and both reassignments are as stated. -/
theorem multiplier_dsp_absorption_witness :
    designPatterns "multiplier" "booth" =
      some ⟨fun w _ => w * 0.15 + 1.0, fun w _ => w * w * 0.6, fun w _ => w * 1.5,
        "Optimized for signed multiplication"⟩ ∧
    (8 : ℝ) ≤ 32 ∧
    ((calculateResources { component := "multiplier", architecture := "booth",
                           width := 32 }).dsps = ⌈(32 : ℝ) / 18⌉ ∧
     (calculateResources { component := "multiplier", architecture := "booth",
                           width := 32 }).luts = ⌈(32 : ℝ) * 32 * 0.6 * 0.3⌉ ∧
     1 ≤ (calculateResources { component := "multiplier", architecture := "booth",
                                width := 32 }).dsps) :=
  ⟨rfl, by norm_num,
    multiplier_dsp_absorption
      { component := "multiplier", architecture := "booth", width := 32 }
      ⟨fun w _ => w * 0.15 + 1.0, fun w _ => w * w * 0.6, fun w _ => w * 1.5,
        "Optimized for signed multiplication"⟩
      rfl rfl (by norm_num) rfl⟩

/-- **C7**: extraction never throws — the embedded `parseVerilogCode` is a total
function whose `success` flag is always `true` (the source's `catch` branch is
unreachable) — and on the malformed input `c7Input` (whose `assign` line has an
unclosed parenthesis) the syntax check reports exactly one
`unbalanced_parentheses` finding carrying the direction (`missing`) and positive
magnitude (`1`) of the imbalance, while the module, port, signal, assignment and
parameter parts of the model are all still extracted. -/
theorem parse_never_throws_and_reports_unbalanced :
    (∀ code : String, (parseVerilogCode code).success = true) ∧
    (parseVerilogCode c7Input).syntax_errors =
      [⟨"unbalanced_parentheses", none,
        "Unbalanced parentheses: missing 1 closing parentheses"⟩] ∧
    (parseVerilogCode c7Input).modules =
      [⟨"top", ["a", "b"], "input a;\noutput b;\nassign x = (a + b;", 1, 5, []⟩] ∧
    (parseVerilogCode c7Input).ports =
      [⟨"a", "input", 1, 0, 0, 2⟩, ⟨"b", "output", 1, 0, 0, 3⟩] ∧
    (parseVerilogCode c7Input).signals = [] ∧
    (parseVerilogCode c7Input).assignments =
      [⟨"x", "(a + b", 4, calculateExpressionComplexity "(a + b".data⟩] ∧
    (parseVerilogCode c7Input).parameters = [] ∧
    calculateExpressionComplexity "(a + b".data = 3 / 2 := by
  refine ⟨fun _ => rfl, by decide, by decide, by decide, by decide, rfl, by decide, ?_⟩
  simp +decide [calculateExpressionComplexity, opChars, countCh]
  norm_num

/-- **C6**: with `device:"Artix-7"`, `componentKind:"adder"`,
`architecture:"ripple_carry"` and all other parameters at their defaults, the
`totalDelay` computed by `calculateTiming` is strictly increasing as the width
increases through 8, 16, 32 (for this pattern
`totalDelay = width·0.125·(1 + 0.6·√4) = width·0.275`). -/
theorem ripple_carry_total_delay_monotone :
    ∃ r8 r16 r32 : TimingResult,
      calculateTiming { width := 8 } = .ok r8 ∧
      calculateTiming { width := 16 } = .ok r16 ∧
      calculateTiming { width := 32 } = .ok r32 ∧
      r8.total_delay < r16.total_delay ∧ r16.total_delay < r32.total_delay := by
  have hsq : Real.sqrt 4 = 2 := by
    rw [show (4 : ℝ) = 2 ^ 2 by norm_num]
    exact Real.sqrt_sq (by norm_num)
  have hnm : ¬(("adder" : String) = "memory" ∧ optTruthy (none : Option ℝ)) := by
    rintro ⟨h, -⟩; exact absurd h (by decide)
  have htd : ∀ w : ℝ, ∃ r : TimingResult,
      calculateTiming { width := w } = .ok r ∧ r.total_delay = w * 0.275 := by
    intro w
    unfold calculateTiming
    rw [show deviceSpecs "Artix-7" = some artix7 from rfl,
      show designPatterns "adder" "ripple_carry" =
        some ⟨fun w _ => w * 0.125, fun w _ => w, fun w _ => w + 1,
          "Linear delay with bit width"⟩ from rfl]
    simp only [if_neg hnm]
    refine ⟨_, rfl, ?_⟩
    show (w * 0.125 + w * 0.125 * artix7.routing_delay_factor * Real.sqrt 4) *
        artix7.temperature_factor ^ (((25 : ℝ) - 25) / 10) *
        getSpeedGradeFactor (-1) = w * 0.275
    rw [hsq, show ((25 : ℝ) - 25) / 10 = 0 by norm_num, Real.rpow_zero,
      show getSpeedGradeFactor (-1) = 1.0 from rfl,
      show artix7.routing_delay_factor = 0.6 from rfl]
    norm_num
    ring
  obtain ⟨r8, e8, t8⟩ := htd 8
  obtain ⟨r16, e16, t16⟩ := htd 16
  obtain ⟨r32, e32, t32⟩ := htd 32
  refine ⟨r8, r16, r32, e8, e16, e32, ?_, ?_⟩
  · rw [t8, t16]; norm_num
  · rw [t16, t32]; norm_num

/-- **C5**: for every timing config (the spec's config shape carries no
`logic_levels` override, so that field is at its default `null`) with a device in
the catalog, `calculateTiming` computes `logicDelay` from the architecture's delay
formula when the (componentKind, architecture) pair is in the catalog (two-argument
`(depth, width)` call for memory with a truthy depth) and otherwise as
`ceil(log2(width)) · device.lutDelay`; `routingDelay = logicDelay ·
device.routingFactor · sqrt(fanout)` (fanout defaults to 4 in the config);
`totalDelay = (logicDelay + routingDelay) · tempFactor · speedFactor`; and
`maxFrequencyMHz = min(1000 / totalDelay, device.maxFrequencyMHz)`. -/
theorem calculateTiming_formulas (cfg : TimingConfig) (ds : DeviceSpec)
    (hdev : deviceSpecs cfg.device = some ds) (hll : cfg.logic_levels = none) :
    ∃ r : TimingResult, calculateTiming cfg = .ok r ∧
      r.routing_delay = r.logic_delay * ds.routing_delay_factor * Real.sqrt cfg.fanout ∧
      r.total_delay = (r.logic_delay + r.routing_delay) *
        ds.temperature_factor ^ ((cfg.temperature - 25) / 10) *
        getSpeedGradeFactor cfg.speed_grade ∧
      r.max_frequency = min (1000 / r.total_delay) ds.max_frequency ∧
      (∀ p : Pattern, designPatterns cfg.component cfg.architecture = some p →
        r.logic_delay =
          if cfg.component = "memory" ∧ optTruthy cfg.depth then
            p.delay_formula (optVal cfg.depth) cfg.width
          else p.delay_formula cfg.width 0) ∧
      (designPatterns cfg.component cfg.architecture = none →
        r.logic_delay = ((⌈Real.logb 2 cfg.width⌉ : ℤ) : ℝ) * ds.lut_delay) := by
  unfold calculateTiming
  rw [hdev]
  refine ⟨_, rfl, rfl, rfl, rfl, fun p hp => ?_, fun hn => ?_⟩
  · show (match designPatterns cfg.component cfg.architecture with
      | some p =>
          if cfg.component = "memory" ∧ optTruthy cfg.depth then
            p.delay_formula (optVal cfg.depth) cfg.width
          else p.delay_formula cfg.width 0
      | none => levelsOf cfg * ds.lut_delay) = _
    rw [hp]
  · show (match designPatterns cfg.component cfg.architecture with
      | some p =>
          if cfg.component = "memory" ∧ optTruthy cfg.depth then
            p.delay_formula (optVal cfg.depth) cfg.width
          else p.delay_formula cfg.width 0
      | none => levelsOf cfg * ds.lut_delay) = _
    rw [hn]
    unfold levelsOf
    rw [hll]

/-- Witness for **C5** at the all-defaults config (`Artix-7`, adder, ripple-carry,
width 8): the device is in the catalog, `logic_levels` is at its default, and the
four formulas hold. -/
theorem calculateTiming_formulas_witness :
    deviceSpecs "Artix-7" = some artix7 ∧
    ({} : TimingConfig).logic_levels = none ∧
    (∃ r : TimingResult, calculateTiming {} = .ok r ∧
      r.routing_delay = r.logic_delay * artix7.routing_delay_factor *
        Real.sqrt ({} : TimingConfig).fanout ∧
      r.total_delay = (r.logic_delay + r.routing_delay) *
        artix7.temperature_factor ^ ((({} : TimingConfig).temperature - 25) / 10) *
        getSpeedGradeFactor ({} : TimingConfig).speed_grade ∧
      r.max_frequency = min (1000 / r.total_delay) artix7.max_frequency ∧
      (∀ p : Pattern,
        designPatterns ({} : TimingConfig).component ({} : TimingConfig).architecture =
          some p →
        r.logic_delay =
          if ({} : TimingConfig).component = "memory" ∧ optTruthy ({} : TimingConfig).depth
          then p.delay_formula (optVal ({} : TimingConfig).depth) ({} : TimingConfig).width
          else p.delay_formula ({} : TimingConfig).width 0) ∧
      (designPatterns ({} : TimingConfig).component ({} : TimingConfig).architecture =
          none →
        r.logic_delay =
          ((⌈Real.logb 2 ({} : TimingConfig).width⌉ : ℤ) : ℝ) * artix7.lut_delay)) :=
  ⟨rfl, rfl, calculateTiming_formulas {} artix7 rfl rfl⟩

/-! ### C8: the `inferred_latch` rule -/

/-- Predicate selecting `inferred_latch` findings. -/
def isLatchFinding (i : LintIssue) : Bool := i.rule == "inferred_latch"

theorem combLoopIssues_filter_latch (trimmed l : String) (idx : Nat) :
    (combLoopIssues trimmed l idx).filter isLatchFinding = [] := by
  unfold combLoopIssues
  cases findAssignLhs trimmed.data with
  | none => rfl
  | some nm =>
    dsimp only
    split
    · simp [isLatchFinding, List.filter]
    · rfl

/-- Lines whose trimmed text does not open an `always @(*` block keep the linter
out of a combinational block: processing them emits no `inferred_latch` finding and
leaves the in-block flag `false`. -/
theorem checkCombGo_skip_latch (lines : List String) :
    ∀ (xs tail : List String) (idx : Nat) (e d : Bool),
      (∀ l ∈ xs, matchAlwaysStar (jsTrim l).data = false) →
      ∃ e' d' : Bool,
        (checkCombGo lines (xs ++ tail) idx false e d).filter isLatchFinding =
        (checkCombGo lines tail (idx + xs.length) false e' d').filter isLatchFinding := by
  intro xs
  induction xs with
  | nil => intro tail idx e d _; exact ⟨e, d, by simp⟩
  | cons l xs ih =>
    intro tail idx e d hxs
    have h1 : matchAlwaysStar (jsTrim l).data = false := hxs l (List.mem_cons_self _ _)
    have hxs' : ∀ x ∈ xs, matchAlwaysStar (jsTrim x).data = false :=
      fun x hx => hxs x (List.mem_cons_of_mem _ hx)
    obtain ⟨e', d', h⟩ := ih tail (idx + 1)
      (e || sIncludes (jsTrim l) "else") (d || sIncludes (jsTrim l) "default") hxs'
    refine ⟨e', d', ?_⟩
    rw [List.cons_append]
    simp only [checkCombGo, h1, Bool.false_or, Bool.or_false, Bool.and_false,
      Bool.false_and, if_false, Bool.false_eq_true, ite_self, List.filter_append,
      combLoopIssues_filter_latch, List.filter_nil, List.nil_append, List.append_nil]
    rw [h]
    simp only [List.length_cons]
    rw [show idx + 1 + xs.length = idx + (xs.length + 1) by omega]

/-- Over `always @(*`-free lines with the in-block flag down, the linter emits no
`inferred_latch` finding at all. -/
theorem checkCombGo_no_latch (lines : List String) (post : List String) (idx : Nat)
    (e d : Bool) (hpost : ∀ l ∈ post, matchAlwaysStar (jsTrim l).data = false) :
    (checkCombGo lines post idx false e d).filter isLatchFinding = [] := by
  obtain ⟨e', d', h⟩ := checkCombGo_skip_latch lines post [] idx e d hpost
  rw [List.append_nil] at h
  rw [h]
  rfl

/-- Processing the three-line block `always @(*) begin / if (sel) out = a; / end`
at index `idx` (with any incoming flags, and a 20-line look-back window that
contains an `if`) emits exactly one `inferred_latch` finding, at the line of the
closing `end`. -/
theorem checkCombGo_c8block (lines post : List String) (idx : Nat) (e d : Bool)
    (hpost : ∀ l ∈ post, matchAlwaysStar (jsTrim l).data = false)
    (hwin : ((lines.take (idx + 2)).drop (idx + 2 - 20)).any
      (fun bl => sIncludes bl "if") = true) :
    (checkCombGo lines
        (["always @(*) begin", "if (sel) out = a;", "end"] ++ post) idx false e d).filter
        isLatchFinding =
      [⟨idx + 3, "error", "inferred_latch", "Incomplete if/case statement may infer latch",
        "Add else clause or default assignment"⟩] := by
  simp only [List.cons_append, List.nil_append]
  simp +decide only [checkCombGo]
  simp only [latchIssuesAt]
  rw [show idx + 1 + 1 = idx + 2 by omega, hwin]
  simp only [Bool.true_or, if_true, List.filter_append, combLoopIssues_filter_latch,
    List.append_nil, List.nil_append]
  rw [checkCombGo_no_latch lines post _ _ _ hpost]
  simp +decide [isLatchFinding, List.filter]

/-- **C8**: for every source in which a combinational `always @(*)` block containing
`if (sel) out = a;` with no `else` and no `default` before its closing `end` is
surrounded by lines that open no `always @(*` block of their own, the rule check
(`checkCombinationalLogic`, the owner of this rule) produces exactly one
`inferred_latch` finding, and its line number is the 1-based line of the block's
closing `end` (`pre.length + 3`). -/
theorem inferred_latch_at_end_line (pre post : List String)
    (hpre : ∀ l ∈ pre, matchAlwaysStar (jsTrim l).data = false)
    (hpost : ∀ l ∈ post, matchAlwaysStar (jsTrim l).data = false) :
    (checkCombinationalLogic
        (pre ++ ["always @(*) begin", "if (sel) out = a;", "end"] ++ post)).filter
        isLatchFinding =
      [⟨pre.length + 3, "error", "inferred_latch",
        "Incomplete if/case statement may infer latch",
        "Add else clause or default assignment"⟩] := by
  unfold checkCombinationalLogic
  rw [List.append_assoc]
  set lines := pre ++ (["always @(*) begin", "if (sel) out = a;", "end"] ++ post) with hl
  obtain ⟨e', d', h⟩ := checkCombGo_skip_latch lines pre
    (["always @(*) begin", "if (sel) out = a;", "end"] ++ post) 0 false false hpre
  rw [hl] at h ⊢
  rw [h]
  have hwin : (((pre ++ (["always @(*) begin", "if (sel) out = a;", "end"] ++ post)).take
      (pre.length + 2)).drop (pre.length + 2 - 20)).any
      (fun bl => sIncludes bl "if") = true := by
    rw [List.take_append 2]
    rw [show (["always @(*) begin", "if (sel) out = a;", "end"] ++ post).take 2 =
      ["always @(*) begin", "if (sel) out = a;"] from rfl]
    rw [List.drop_append_of_le_length (by omega)]
    simp +decide [List.any_append]
  have := checkCombGo_c8block
    (pre ++ (["always @(*) begin", "if (sel) out = a;", "end"] ++ post)) post
    pre.length e' d' hpost hwin
  rw [show (0 : Nat) + pre.length = pre.length by omega]
  exact this

/-- Witness for **C8** with one surrounding line on each side: the finding sits at
line 4 (= `pre.length + 3` with one preceding line). -/
theorem inferred_latch_at_end_line_witness :
    (checkCombinationalLogic
        (["module top(sel, a, out);"] ++
          ["always @(*) begin", "if (sel) out = a;", "end"] ++ ["endmodule"])).filter
        isLatchFinding =
      [⟨4, "error", "inferred_latch", "Incomplete if/case statement may infer latch",
        "Add else clause or default assignment"⟩] :=
  inferred_latch_at_end_line ["module top(sel, a, out);"] ["endmodule"]
    (by decide) (by decide)

/-! ### C4: port extraction on well-formed single-module input

The counterexample below shows the claim fails on ANSI-style headers (the port
regex's greedy comma-list swallows a following direction keyword).  The amended
claim is proved for the non-ANSI declaration family `renderModule`: ports listed by
name in the module header and declared one per line in the body. -/

/-- **C4** (counterexample).  `module top(input a, output b);` is a well-formed
single-module input with one declared input `a` and one declared output `b`, but
`extractPorts` returns the entries `a:input` and `output:input` — the comma-list of
the port regex captures the keyword `output` as a port *name*, and the declared
output `b` gets no entry with its declared direction; the syntax check reports
nothing. -/
theorem ansi_header_ports_misparsed :
    extractPorts "module top(input a, output b);\nendmodule\n" =
      [⟨"a", "input", 1, 0, 0, 1⟩, ⟨"output", "input", 1, 0, 0, 1⟩] ∧
    checkSyntax "module top(input a, output b);\nendmodule\n" = [] := by
  constructor
  · decide
  · decide

/-! #### Character-class facts -/

theorem digitCh_wordChar {c : Char} (h : digitCh c = true) : wordChar c = true := by
  unfold digitCh at h
  unfold wordChar
  simp only [Bool.or_eq_true, Bool.and_eq_true, decide_eq_true_eq] at h ⊢
  tauto

theorem wordChar_not_space {c : Char} (h : wordChar c = true) : jsSpace c = false := by
  by_contra hs
  rw [Bool.not_eq_false] at hs
  unfold jsSpace at hs
  simp only [Bool.or_eq_true, decide_eq_true_eq] at hs
  rcases hs with ((((rfl | rfl) | rfl) | rfl) | rfl) | rfl <;> exact absurd h (by decide)

theorem wordChar_ne {c x : Char} (h : wordChar c = true) (hx : wordChar x = false) :
    c ≠ x := by
  rintro rfl; rw [h] at hx; exact Bool.noConfusion hx

/-! #### Substring facts -/

theorem isPrefixOf_self_append (p t : List Char) : p.isPrefixOf (p ++ t) = true := by
  induction p with
  | nil => cases t <;> rfl
  | cons c p ih => simp [List.isPrefixOf, ih]

theorem mem_of_isPrefixOf {p l : List Char} (h : p.isPrefixOf l = true) :
    ∀ x ∈ p, x ∈ l := by
  induction p generalizing l with
  | nil => intro x hx; cases hx
  | cons c p ih =>
    cases l with
    | nil => cases h
    | cons d t =>
      simp only [List.isPrefixOf, Bool.and_eq_true, beq_iff_eq] at h
      intro x hx
      rcases List.mem_cons.mp hx with rfl | hx
      · rw [h.1]; exact List.mem_cons_self _ _
      · exact List.mem_cons_of_mem _ (ih h.2 x hx)

theorem containsSub_eq_false_of_not_mem {x : Char} {pat cs : List Char}
    (hx : x ∈ pat) (h : x ∉ cs) : containsSub pat cs = false := by
  induction cs with
  | nil =>
    unfold containsSub
    cases pat with
    | nil => cases hx
    | cons c p => rfl
  | cons c t ih =>
    unfold containsSub
    have h1 : pat.isPrefixOf (c :: t) = false := by
      by_contra hp
      rw [Bool.not_eq_false] at hp
      exact h (mem_of_isPrefixOf hp x hx)
    rw [h1, ih (fun hm => h (List.mem_cons_of_mem _ hm))]
    rfl

theorem containsSub_singleton {x : Char} {cs : List Char} (h : x ∈ cs) :
    containsSub [x] cs = true := by
  induction cs with
  | nil => cases h
  | cons c t ih =>
    unfold containsSub
    rcases List.mem_cons.mp h with rfl | hm
    · simp [List.isPrefixOf]
    · rw [ih hm]; simp

/-! #### takeWhile/dropWhile over appends -/

theorem takeWhile_append_all {p : Char → Bool} {xs ys : List Char}
    (h : ∀ c ∈ xs, p c = true) :
    (xs ++ ys).takeWhile p = xs ++ ys.takeWhile p := by
  induction xs with
  | nil => rfl
  | cons c t ih =>
    simp only [List.cons_append, List.takeWhile_cons, h c (List.mem_cons_self _ _), if_true]
    rw [ih fun x hx => h x (List.mem_cons_of_mem _ hx)]

theorem takeWhile_cons_neg {p : Char → Bool} {c : Char} {t : List Char}
    (h : p c = false) : (c :: t).takeWhile p = [] := by
  simp [List.takeWhile_cons, h]

theorem dropWhile_cons_neg {p : Char → Bool} {c : Char} {t : List Char}
    (h : p c = false) : (c :: t).dropWhile p = c :: t := by
  simp [List.dropWhile_cons, h]

/-! #### Keyword alternation facts -/

/-- The keyword list of the port regex. -/
def portKws : List String := ["input", "output", "inout"]

theorem takeKw_none_head {c : Char} {cs : List Char} (hi : c ≠ 'i') (ho : c ≠ 'o') :
    takeKw portKws (c :: cs) = none := by
  have h1 : ('i' == c) = false := by simp [hi.symm]
  have h2 : ('o' == c) = false := by simp [ho.symm]
  simp [portKws, takeKw, List.isPrefixOf, h1, h2]

theorem takeKw_none_o {c : Char} {cs : List Char} (hu : c ≠ 'u') :
    takeKw portKws ('o' :: c :: cs) = none := by
  have h2 : ('u' == c) = false := by simp [hu.symm]
  simp [portKws, takeKw, List.isPrefixOf, h2]

theorem takeKw_none_o_nil : takeKw portKws ['o'] = none := by decide

theorem tryMatchDecl_none_of_takeKw {kws : List String} {cs : List Char}
    (h : takeKw kws cs = none) : tryMatchDecl kws cs = none := by
  simp [tryMatchDecl, h]

/-! #### Safe chunks: no keyword can start inside them -/

/-- `SafeChars xs rest` guarantees that no keyword of the port regex starts at any
position inside `xs` when `xs` is followed by `rest`: no character is `i`, and any
`o` is followed by a non-`u` (so `output` cannot start there either). -/
def SafeChars : List Char → List Char → Prop
  | [], _ => True
  | c :: t, rest =>
    c ≠ 'i' ∧ (c = 'o' → ∀ d, (t ++ rest).head? = some d → d ≠ 'u') ∧ SafeChars t rest

theorem takeKw_none_of_safe {c : Char} {t rest : List Char}
    (h : SafeChars (c :: t) rest) : takeKw portKws (c :: (t ++ rest)) = none := by
  obtain ⟨hi, ho, -⟩ := h
  by_cases hc : c = 'o'
  · subst hc
    cases ht : t ++ rest with
    | nil => exact takeKw_none_o_nil
    | cons d t' => exact takeKw_none_o (ho rfl d (by rw [ht]; rfl))
  · exact takeKw_none_head hi hc

theorem ne_of_class {c x : Char} (p : Char → Bool) (h : p c = true) (hx : p x = false) :
    c ≠ x := fun e => by subst e; rw [h] at hx; exact Bool.noConfusion hx

theorem SafeChars_of_noio {xs : List Char} (h : ∀ c ∈ xs, c ≠ 'i' ∧ c ≠ 'o') :
    ∀ rest, SafeChars xs rest := by
  induction xs with
  | nil => intro rest; trivial
  | cons c t ih =>
    intro rest
    exact ⟨(h c (List.mem_cons_self _ _)).1,
      fun hc => absurd hc (h c (List.mem_cons_self _ _)).2,
      ih (fun x hx => h x (List.mem_cons_of_mem _ hx)) rest⟩

theorem SafeChars_append {xs ys rest : List Char}
    (h1 : SafeChars xs (ys ++ rest)) (h2 : SafeChars ys rest) :
    SafeChars (xs ++ ys) rest := by
  induction xs with
  | nil => exact h2
  | cons c t ih =>
    obtain ⟨hi, ho, hrec⟩ := h1
    exact ⟨hi, fun hc d hd => ho hc d (by rw [← List.append_assoc]; exact hd),
      ih hrec⟩

/-! #### Scanner stepping -/

theorem declScan_nil (kws : List String) (fuel off : Nat) :
    declScan kws fuel [] off = [] := by
  cases fuel <;> rfl

theorem declScan_cons_none {kws : List String} {c : Char} {cs : List Char} {off fuel : Nat}
    (h : tryMatchDecl kws (c :: cs) = none) (hf : (c :: cs).length ≤ fuel) :
    declScan kws fuel (c :: cs) off = declScan kws (fuel - 1) cs (off + 1) := by
  cases fuel with
  | zero => simp at hf
  | succ f => simp [declScan, h]

theorem declScan_cons_some {kws : List String} {cs : List Char} {off fuel : Nat}
    {kw : String} {rng : Option (List Char × List Char)} {nms : List (List Char)}
    {rest : List Char}
    (h : tryMatchDecl kws cs = some (kw, rng, nms, rest)) (hne : cs ≠ [])
    (hf : cs.length ≤ fuel) :
    declScan kws fuel cs off =
      ⟨kw, rng, nms, off⟩ :: declScan kws (fuel - 1) rest (off + (cs.length - rest.length)) := by
  cases fuel with
  | zero =>
    cases cs with
    | nil => exact absurd rfl hne
    | cons c t => simp at hf
  | succ f =>
    cases cs with
    | nil => exact absurd rfl hne
    | cons c t => simp [declScan, h]

theorem declScan_skip {xs ys : List Char} :
    ∀ (fuel off : Nat), (xs ++ ys).length ≤ fuel → SafeChars xs ys →
      declScan portKws fuel (xs ++ ys) off =
        declScan portKws (fuel - xs.length) ys (off + xs.length) := by
  induction xs with
  | nil => intro fuel off hf _; simp
  | cons c t ih =>
    intro fuel off hf hs
    rw [List.cons_append,
      declScan_cons_none (tryMatchDecl_none_of_takeKw (takeKw_none_of_safe hs))
        (by simpa using hf),
      ih (fuel - 1) (off + 1)
        (by simp only [List.length_append, List.length_cons] at hf ⊢; omega) hs.2.2,
      List.length_cons,
      show fuel - 1 - t.length = fuel - (t.length + 1) by omega,
      show off + 1 + t.length = off + (t.length + 1) by omega]

/-! #### The non-ANSI render family of claim C4 -/

inductive PortDir
  | input
  | output
  deriving DecidableEq

/-- Direction keyword of a declaration. -/
def dirStr : PortDir → String
  | .input => "input"
  | .output => "output"

/-- A declared port: direction, optional `[msb:lsb]` range, name. -/
structure PDecl where
  dir : PortDir
  range : Option (Nat × Nat)
  name : String

/-- Decimal digit to character. -/
def digitChar : Nat → Char
  | 0 => '0'
  | 1 => '1'
  | 2 => '2'
  | 3 => '3'
  | 4 => '4'
  | 5 => '5'
  | 6 => '6'
  | 7 => '7'
  | 8 => '8'
  | _ => '9'

/-- Decimal rendering of a natural number. -/
def digitChars (n : Nat) : List Char :=
  if n = 0 then ['0'] else (Nat.digits 10 n).reverse.map digitChar

/-- The `[msb:lsb] ` part of a declaration, empty when no range is declared. -/
def renderRange : Option (Nat × Nat) → List Char
  | none => []
  | some (m, l) => '[' :: (digitChars m ++ ':' :: (digitChars l ++ [']', ' ']))

/-- One body declaration line, without its newline: `input [m:l] name;`. -/
def declLineChars (d : PDecl) : List Char :=
  (dirStr d.dir).data ++ ' ' :: (renderRange d.range ++ d.name.data ++ [';'])

/-- One body declaration including its terminating newline. -/
def renderDecl (d : PDecl) : List Char := declLineChars d ++ ['\n']

/-- The comma-separated name list of the module header. -/
def commaNames : List PDecl → List Char
  | [] => []
  | [d] => d.name.data
  | d :: ds => d.name.data ++ ',' :: ' ' :: commaNames ds

/-- A well-formed non-ANSI single-module source: header listing the port names,
then one declaration per line, then `endmodule`. -/
def renderModule (ds : List PDecl) : String :=
  ⟨"module top(".data ++ (commaNames ds ++ ')' :: ';' :: '\n' ::
    ((ds.map renderDecl).flatten ++ ("endmodule".data ++ ['\n'])))⟩

/-- Identifiers of the family: non-empty words avoiding `i`, `o` (so no direction
keyword can start inside them), `e` and `n` (so no word-boundary `begin`/`end`
token and no `if` substring can arise anywhere in the rendered module). -/
def GoodName (n : String) : Prop :=
  n.data ≠ [] ∧ ∀ c ∈ n.data, wordChar c = true ∧ c ≠ 'i' ∧ c ≠ 'o' ∧ c ≠ 'e' ∧ c ≠ 'n'

/-- The declared width of claim C4: `msb - lsb + 1`, default 1. -/
def declaredWidth : Option (Nat × Nat) → Int
  | none => 1
  | some (m, l) => (m : Int) - (l : Int) + 1

/-- The regex range captures produced for a rendered declaration. -/
def matchedRange : Option (Nat × Nat) → Option (List Char × List Char)
  | none => none
  | some (m, l) => some (digitChars m, digitChars l)

/-! #### Digit facts -/

theorem digitCh_digitChar (d : Nat) : digitCh (digitChar d) = true := by
  unfold digitChar
  split <;> decide

theorem digitChar_val {d : Nat} (h : d < 10) : (digitChar d).toNat - 48 = d := by
  interval_cases d <;> decide

theorem digitChars_ne_nil (n : Nat) : digitChars n ≠ [] := by
  unfold digitChars
  split
  · simp
  · simp only [ne_eq, List.map_eq_nil_iff, List.reverse_eq_nil_iff]
    next h => exact Nat.digits_ne_nil_iff_ne_zero.mpr h

theorem mem_digitChars {n : Nat} {c : Char} (h : c ∈ digitChars n) : digitCh c = true := by
  unfold digitChars at h
  split at h
  · rcases List.mem_singleton.mp h with rfl; decide
  · obtain ⟨d, -, rfl⟩ := List.mem_map.mp h
    exact digitCh_digitChar d

theorem foldl_digits_aux (L : List Nat) (hL : ∀ d ∈ L, d < 10) :
    ∀ a : Nat, (L.reverse.map digitChar).foldl (fun acc c => 10 * acc + (c.toNat - 48)) a =
      a * 10 ^ L.length + Nat.ofDigits 10 L := by
  induction L with
  | nil => intro a; simp
  | cons d L ih =>
    intro a
    rw [List.reverse_cons, List.map_append, List.foldl_append]
    simp only [List.map_cons, List.map_nil, List.foldl_cons, List.foldl_nil]
    rw [ih (fun x hx => hL x (List.mem_cons_of_mem _ hx)) a,
      digitChar_val (hL d (List.mem_cons_self _ _)), Nat.ofDigits_cons, List.length_cons]
    ring

theorem parseDigitsNat_digitChars (n : Nat) : parseDigitsNat (digitChars n) = n := by
  unfold digitChars
  split
  · next h => subst h; decide
  · rw [parseDigitsNat,
      foldl_digits_aux _ (fun d hd => Nat.digits_lt_base (by norm_num) hd) 0]
    simp [Nat.ofDigits_digits]

/-! #### parseRange on rendered ranges -/

theorem parseRange_no_bracket {c : Char} {cs : List Char} (h : c ≠ '[') :
    parseRange (c :: cs) = some (none, c :: cs) := by
  simp only [parseRange]
  rw [if_neg h]

theorem dropWhile_space_digits (m : Nat) (rest : List Char) :
    (digitChars m ++ rest).dropWhile jsSpace = digitChars m ++ rest := by
  cases hd : digitChars m with
  | nil => exact absurd hd (digitChars_ne_nil m)
  | cons c t =>
    rw [List.cons_append]
    exact dropWhile_cons_neg
      (wordChar_not_space (digitCh_wordChar (mem_digitChars (hd ▸ List.mem_cons_self c t))))

theorem takeWhile_digits {c : Char} (m : Nat) (hc : digitCh c = false) (rest : List Char) :
    (digitChars m ++ c :: rest).takeWhile digitCh = digitChars m := by
  rw [takeWhile_append_all (fun x hx => mem_digitChars hx), takeWhile_cons_neg hc,
    List.append_nil]

theorem list_isEmpty_false {α : Type} {l : List α} (h : l ≠ []) : l.isEmpty = false := by
  cases l
  · exact absurd rfl h
  · rfl

theorem parseRange_render (m l : Nat) (rest : List Char) :
    parseRange ('[' :: (digitChars m ++ ':' :: (digitChars l ++ ']' :: rest))) =
      some (some (digitChars m, digitChars l), rest) := by
  simp only [parseRange, if_true]
  rw [dropWhile_space_digits, takeWhile_digits (c := ':') m (by decide),
    list_isEmpty_false (digitChars_ne_nil m), if_neg Bool.false_ne_true, List.drop_left,
    dropWhile_cons_neg (by decide : jsSpace ':' = false)]
  dsimp only
  rw [if_pos rfl, dropWhile_space_digits, takeWhile_digits (c := ']') l (by decide),
    list_isEmpty_false (digitChars_ne_nil l), if_neg Bool.false_ne_true, List.drop_left,
    dropWhile_cons_neg (by decide : jsSpace ']' = false)]
  dsimp only
  rw [if_pos rfl]

theorem takeKw_input (rest : List Char) :
    takeKw portKws ("input".data ++ rest) = some ("input", rest) := by
  simp [portKws, takeKw, isPrefixOf_self_append]

theorem takeKw_output (rest : List Char) :
    takeKw portKws ("output".data ++ rest) = some ("output", rest) := by
  simp [portKws, takeKw, isPrefixOf_self_append, List.isPrefixOf]

theorem takeKw_dir (d : PortDir) (rest : List Char) :
    takeKw portKws ((dirStr d).data ++ rest) = some (dirStr d, rest) := by
  cases d
  · exact takeKw_input rest
  · exact takeKw_output rest

theorem nameLoop_exit {tok : List Char → List Char} {c : Char} {rest : List Char}
    (hns : jsSpace c = false) (hnc : c ≠ ',') (fuel : Nat) (acc : List (List Char)) :
    nameLoop tok fuel (c :: rest) acc = (acc.reverse, c :: rest) := by
  cases fuel with
  | zero => rfl
  | succ f =>
    simp only [nameLoop, dropWhile_cons_neg hns]
    rw [if_neg hnc]

/-- All characters of a good name are word characters. -/
theorem goodName_word {n : String} (h : GoodName n) : ∀ c ∈ n.data, wordChar c = true :=
  fun c hc => (h.2 c hc).1

theorem dropWhile_space_name {n : String} (h : GoodName n) (rest : List Char) :
    (n.data ++ rest).dropWhile jsSpace = n.data ++ rest := by
  cases hd : n.data with
  | nil => exact absurd hd h.1
  | cons c t =>
    rw [List.cons_append]
    exact dropWhile_cons_neg
      (wordChar_not_space (goodName_word h c (hd ▸ List.mem_cons_self c t)))

theorem takeWhile_word_name {n : String} (h : GoodName n) {c : Char}
    (hc : wordChar c = false) (rest : List Char) :
    (n.data ++ c :: rest).takeWhile wordChar = n.data := by
  rw [takeWhile_append_all (goodName_word h), takeWhile_cons_neg hc, List.append_nil]

/-- The declaration regex matches a rendered declaration exactly as expected:
keyword, optional digit captures, the single name, resting just before the `;`. -/
theorem tryMatchDecl_render (d : PDecl) (rest : List Char) (h : GoodName d.name) :
    tryMatchDecl portKws (renderDecl d ++ rest) =
      some (dirStr d.dir, matchedRange d.range, [d.name.data], ';' :: '\n' :: rest) := by
  have hshape : renderDecl d ++ rest =
      (dirStr d.dir).data ++
        ' ' :: (renderRange d.range ++ (d.name.data ++ ';' :: '\n' :: rest)) := by
    simp [renderDecl, declLineChars, List.append_assoc]
  rw [hshape]
  unfold tryMatchDecl
  rw [takeKw_dir]
  dsimp only
  rw [show (' ' :: (renderRange d.range ++ (d.name.data ++ ';' :: '\n' :: rest))).dropWhile
        jsSpace =
      (renderRange d.range ++ (d.name.data ++ ';' :: '\n' :: rest)).dropWhile jsSpace
      from rfl]
  rcases hr : d.range with - | ⟨m, l⟩
  · rw [show renderRange none = [] from rfl, List.nil_append, dropWhile_space_name h]
    have hpr : parseRange (d.name.data ++ ';' :: '\n' :: rest) =
        some (none, d.name.data ++ ';' :: '\n' :: rest) := by
      cases hd : d.name.data with
      | nil => exact absurd hd h.1
      | cons c t =>
        rw [List.cons_append]
        exact parseRange_no_bracket
          (ne_of_class wordChar (goodName_word h c (hd ▸ List.mem_cons_self c t))
            (by decide))
    rw [hpr]
    dsimp only
    rw [dropWhile_space_name h, takeWhile_word_name h (by decide),
      list_isEmpty_false h.1, if_neg Bool.false_ne_true, List.drop_left,
      nameLoop_exit (by decide) (by decide)]
    rfl
  · rw [show renderRange (some (m, l)) ++ (d.name.data ++ ';' :: '\n' :: rest) =
        '[' :: (digitChars m ++ ':' :: (digitChars l ++ ']' :: ' ' ::
          (d.name.data ++ ';' :: '\n' :: rest))) by
      simp [renderRange, List.append_assoc]]
    rw [show ('[' :: (digitChars m ++ ':' :: (digitChars l ++ ']' :: ' ' ::
          (d.name.data ++ ';' :: '\n' :: rest)))).dropWhile jsSpace =
        '[' :: (digitChars m ++ ':' :: (digitChars l ++ ']' :: ' ' ::
          (d.name.data ++ ';' :: '\n' :: rest)))
      from dropWhile_cons_neg (by decide)]
    rw [parseRange_render]
    dsimp only
    rw [show (' ' :: (d.name.data ++ ';' :: '\n' :: rest)).dropWhile jsSpace =
        (d.name.data ++ ';' :: '\n' :: rest).dropWhile jsSpace from rfl]
    rw [dropWhile_space_name h, takeWhile_word_name h (by decide),
      list_isEmpty_false h.1, if_neg Bool.false_ne_true, List.drop_left,
      nameLoop_exit (by decide) (by decide)]
    rfl

/-! #### Safe chunks of the rendered module -/

theorem safe_module_top (rest : List Char) : SafeChars "module top(".data rest := by
  show SafeChars
    ('m' :: 'o' :: 'd' :: 'u' :: 'l' :: 'e' :: ' ' :: 't' :: 'o' :: 'p' :: '(' :: []) rest
  simp +decide [SafeChars]

theorem safe_endmodule (rest : List Char) :
    SafeChars ("endmodule".data ++ ['\n']) rest := by
  show SafeChars
    ('e' :: 'n' :: 'd' :: 'm' :: 'o' :: 'd' :: 'u' :: 'l' :: 'e' :: '\n' :: []) rest
  simp +decide [SafeChars]

theorem mem_commaNames {ds : List PDecl} {x : Char} (hx : x ∈ commaNames ds) :
    (∃ d ∈ ds, x ∈ d.name.data) ∨ x = ',' ∨ x = ' ' := by
  induction ds with
  | nil => cases hx
  | cons d ds ih =>
    cases ds with
    | nil =>
      rw [show commaNames [d] = d.name.data from rfl] at hx
      exact Or.inl ⟨d, List.mem_cons_self _ _, hx⟩
    | cons d' ds' =>
      rw [show commaNames (d :: d' :: ds') =
        d.name.data ++ ',' :: ' ' :: commaNames (d' :: ds') from rfl] at hx
      rcases List.mem_append.mp hx with h1 | h2
      · exact Or.inl ⟨d, List.mem_cons_self _ _, h1⟩
      · rcases List.mem_cons.mp h2 with rfl | h3
        · exact Or.inr (Or.inl rfl)
        · rcases List.mem_cons.mp h3 with rfl | h4
          · exact Or.inr (Or.inr rfl)
          · rcases ih h4 with ⟨d0, hd0, hm⟩ | h5
            · exact Or.inl ⟨d0, List.mem_cons_of_mem _ hd0, hm⟩
            · exact Or.inr h5

theorem safe_commaNames {ds : List PDecl} (h : ∀ d ∈ ds, GoodName d.name)
    (rest : List Char) : SafeChars (commaNames ds) rest := by
  refine SafeChars_of_noio (fun c hc => ?_) rest
  rcases mem_commaNames hc with ⟨d, hd, hm⟩ | rfl | rfl
  · exact ⟨((h d hd).2 c hm).2.1, ((h d hd).2 c hm).2.2.1⟩
  · exact ⟨by decide, by decide⟩
  · exact ⟨by decide, by decide⟩

/-! #### Scanning the rendered module -/

/-- The raw regex matches produced by scanning the declarations of the body,
starting at offset `off`. -/
def rawDeclsOf : List PDecl → Nat → List RawDecl
  | [], _ => []
  | d :: ds, off =>
    ⟨dirStr d.dir, matchedRange d.range, [d.name.data], off⟩ ::
      rawDeclsOf ds (off + (renderDecl d).length)

theorem renderDecl_len (d : PDecl) : 4 ≤ (renderDecl d).length := by
  rcases d with ⟨dir, rng, name⟩
  cases dir <;> simp [renderDecl, declLineChars, dirStr, List.length_append]

theorem declScan_decls (ds : List PDecl) :
    ∀ (off fuel : Nat), (∀ d ∈ ds, GoodName d.name) →
      ((ds.map renderDecl).flatten ++ ("endmodule".data ++ ['\n'])).length ≤ fuel →
      declScan portKws fuel
        ((ds.map renderDecl).flatten ++ ("endmodule".data ++ ['\n'])) off =
        rawDeclsOf ds off := by
  induction ds with
  | nil =>
    intro off fuel _ hf
    rw [List.map_nil, List.flatten_nil, List.nil_append] at hf ⊢
    rw [show ("endmodule".data ++ ['\n'] : List Char) =
        ("endmodule".data ++ ['\n']) ++ [] by simp,
      declScan_skip fuel off (by simpa using hf) (safe_endmodule []), declScan_nil]
    rfl
  | cons d ds ih =>
    intro off fuel hg hf
    have hgd : GoodName d.name := hg d (List.mem_cons_self _ _)
    have hg' : ∀ x ∈ ds, GoodName x.name := fun x hx => hg x (List.mem_cons_of_mem _ hx)
    rw [List.map_cons, List.flatten_cons, List.append_assoc] at hf ⊢
    set T := (ds.map renderDecl).flatten ++ ("endmodule".data ++ ['\n']) with hT
    have hlen : 4 ≤ (renderDecl d).length := renderDecl_len d
    have hne : renderDecl d ++ T ≠ [] := by
      intro he
      have hc := congrArg List.length he
      simp only [List.length_append, List.length_nil] at hc
      omega
    rw [declScan_cons_some (tryMatchDecl_render d T hgd) hne hf]
    rw [declScan_cons_none
      (tryMatchDecl_none_of_takeKw (takeKw_none_head (by decide) (by decide)))
      (by simp only [List.length_append, List.length_cons] at hf ⊢; omega)]
    rw [declScan_cons_none
      (tryMatchDecl_none_of_takeKw (takeKw_none_head (by decide) (by decide)))
      (by simp only [List.length_append, List.length_cons] at hf ⊢; omega)]
    rw [ih (off + ((renderDecl d ++ T).length - (';' :: '\n' :: T).length) + 1 + 1)
      (fuel - 1 - 1 - 1) hg'
      (by simp only [List.length_append, List.length_cons] at hf ⊢; omega)]
    rw [rawDeclsOf]
    congr 2
    simp only [List.length_append, List.length_cons]
    omega

theorem declScan_renderModule (ds : List PDecl) (h : ∀ d ∈ ds, GoodName d.name)
    (fuel : Nat) (hf : (renderModule ds).data.length ≤ fuel) :
    declScan portKws fuel (renderModule ds).data 0 =
      rawDeclsOf ds ("module top(".data ++ (commaNames ds ++ [')', ';', '\n'])).length := by
  have hdata : (renderModule ds).data =
      ("module top(".data ++ (commaNames ds ++ [')', ';', '\n'])) ++
        ((ds.map renderDecl).flatten ++ ("endmodule".data ++ ['\n'])) := by
    simp [renderModule, List.append_assoc]
  rw [hdata] at hf ⊢
  have hsafe : SafeChars ("module top(".data ++ (commaNames ds ++ [')', ';', '\n']))
      ((ds.map renderDecl).flatten ++ ("endmodule".data ++ ['\n'])) := by
    refine SafeChars_append (safe_module_top _) ?_
    refine SafeChars_append (safe_commaNames h _) ?_
    exact SafeChars_of_noio (by decide) _
  rw [declScan_skip fuel 0 hf hsafe]
  rw [declScan_decls ds _ _ h (by
    simp only [List.length_append] at hf ⊢
    omega)]
  rw [Nat.zero_add]

theorem ports_projection (code : List Char) (ds : List PDecl) :
    ∀ off : Nat,
      ((rawDeclsOf ds off).flatMap (portsOfRawDecl code)).map
        (fun p => (p.name, p.direction, p.width)) =
      ds.map (fun d => (d.name, dirStr d.dir, declaredWidth d.range)) := by
  induction ds with
  | nil => intro off; rfl
  | cons d ds ih =>
    intro off
    rw [rawDeclsOf, List.flatMap_cons, List.map_append, ih]
    rcases d with ⟨dir, rng, name⟩
    rcases rng with - | ⟨m, l⟩
    · rfl
    · simp only [portsOfRawDecl, matchedRange, List.map_cons, List.map_nil,
        List.map_map, declaredWidth]
      rw [parseDigitsNat_digitChars, parseDigitsNat_digitChars]
      rfl

/-! #### Zero syntax findings on the rendered module

`checkSyntax` walks the lines of the source.  Each line of a rendered module is
*neutral*: it triggers neither per-line finding and leaves all three delimiter
counters unchanged. -/

/-- No adjacent occurrence of the character pair `a, b`. -/
def noPair (a b : Char) : List Char → Bool
  | c :: d :: t => !(c = a && d = b) && noPair a b (d :: t)
  | _ => true

theorem noPair_tail {a b c : Char} {t : List Char} (h : noPair a b (c :: t) = true) :
    noPair a b t = true := by
  cases t with
  | nil => rfl
  | cons d t' => simp [noPair] at h ⊢; exact h.2

theorem noPair_of_left {a b : Char} : ∀ {cs : List Char}, a ∉ cs → noPair a b cs = true
  | [], _ => rfl
  | [_], _ => rfl
  | c :: d :: t, h => by
    have hc : ¬ c = a := fun e => h (e ▸ List.mem_cons_self c (d :: t))
    have ht : a ∉ d :: t := fun hm => h (List.mem_cons_of_mem _ hm)
    simp [noPair, hc, noPair_of_left (b := b) ht]

theorem noPair_of_right {a b : Char} : ∀ {cs : List Char}, b ∉ cs → noPair a b cs = true
  | [], _ => rfl
  | [_], _ => rfl
  | c :: d :: t, h => by
    have hd : ¬ d = b := fun e => h (e ▸ List.mem_cons_of_mem c (List.mem_cons_self d t))
    have ht : b ∉ d :: t := fun hm => h (List.mem_cons_of_mem _ hm)
    simp [noPair, hd, noPair_of_right (a := a) ht]

theorem noPair_append_of_last {a b x : Char} {xs ys : List Char}
    (hx : xs.getLast? = some x) (hxa : x ≠ a)
    (h1 : noPair a b xs = true) (h2 : noPair a b ys = true) :
    noPair a b (xs ++ ys) = true := by
  induction xs with
  | nil => simp at hx
  | cons c t ih =>
    cases t with
    | nil =>
      have hcx : c = x := by simpa using hx
      subst hcx
      cases ys with
      | nil => rfl
      | cons y ys' =>
        show (!(decide (c = a) && decide (y = b)) && noPair a b (y :: ys')) = true
        simp [hxa, h2]
    | cons d t' =>
      rw [List.getLast?_cons_cons] at hx
      have h1s : (!(decide (c = a) && decide (d = b)) && noPair a b (d :: t')) = true := h1
      rw [Bool.and_eq_true] at h1s
      rcases h1s with ⟨hnot, hrec⟩
      have hrest := ih hx hrec
      show (!(decide (c = a) && decide (d = b)) && noPair a b (d :: (t' ++ ys))) = true
      rw [Bool.and_eq_true]
      exact ⟨hnot, hrest⟩

theorem isPrefixOf_pair_false {a b c : Char} {tl t : List Char}
    (h : noPair a b (c :: t) = true) :
    (a :: b :: tl).isPrefixOf (c :: t) = false := by
  cases t with
  | nil => simp [List.isPrefixOf]
  | cons d t' =>
    simp only [noPair, Bool.and_eq_true, Bool.not_eq_true', Bool.and_eq_false_iff,
      decide_eq_false_iff_not] at h
    simp [List.isPrefixOf]
    intro ha hb
    rcases h.1 with hc | hc
    · exact absurd ha.symm hc
    · exact absurd hb.symm hc

theorem containsSub_pair_false {a b : Char} {tl : List Char} :
    ∀ {cs : List Char}, noPair a b cs = true → containsSub (a :: b :: tl) cs = false
  | [], _ => rfl
  | c :: t, h => by
    simp only [containsSub, Bool.or_eq_false_iff]
    exact ⟨isPrefixOf_pair_false h, containsSub_pair_false (noPair_tail h)⟩

theorem countWordTokAux_pair_zero {a b : Char} {tl : List Char} :
    ∀ {cs : List Char} (prev : Option Char), noPair a b cs = true →
      countWordTokAux (a :: b :: tl) prev cs = 0
  | [], _, _ => rfl
  | c :: t, prev, h => by
    have hrec := @countWordTokAux_pair_zero a b tl t (some c) (noPair_tail h)
    simp only [countWordTokAux]
    rw [isPrefixOf_pair_false h, hrec]
    simp

theorem containsSub_singleton_of_mem {c : Char} :
    ∀ {cs : List Char}, c ∈ cs → containsSub [c] cs = true
  | d :: t, h => by
    simp only [containsSub, List.isPrefixOf, List.isPrefixOf_nil_left, Bool.and_true,
      Bool.or_eq_true, beq_iff_eq]
    rcases List.mem_cons.mp h with rfl | hm
    · exact Or.inl rfl
    · exact Or.inr (containsSub_singleton_of_mem hm)

theorem countCh_append (c : Char) (xs ys : List Char) :
    countCh c (xs ++ ys) = countCh c xs + countCh c ys := by
  simp [countCh, List.filter_append]

theorem countCh_zero {c : Char} : ∀ {cs : List Char}, c ∉ cs → countCh c cs = 0
  | [], _ => rfl
  | d :: t, h => by
    have hd : ¬ d = c := fun e => h (e ▸ List.mem_cons_self d t)
    simp only [countCh, List.filter_cons, decide_eq_true_eq, if_neg hd]
    exact countCh_zero fun hm => h (List.mem_cons_of_mem _ hm)

/-- The part of a declaration line after the direction keyword and its space. -/
theorem mem_declRest {rng : Option (Nat × Nat)} {nm : String} {c : Char}
    (hc : c ∈ (renderRange rng ++ nm.data) ++ [';']) :
    c ∈ "[]: ;".data ∨ digitCh c = true ∨ c ∈ nm.data := by
  rcases List.mem_append.mp hc with h1 | h2
  · rcases List.mem_append.mp h1 with hr | hn
    · cases rng with
      | none => cases hr
      | some ml =>
        rcases ml with ⟨m, l⟩
        simp only [renderRange] at hr
        rcases List.mem_cons.mp hr with rfl | hr
        · exact Or.inl (by decide)
        rcases List.mem_append.mp hr with hd | hr
        · exact Or.inr (Or.inl (mem_digitChars hd))
        rcases List.mem_cons.mp hr with rfl | hr
        · exact Or.inl (by decide)
        rcases List.mem_append.mp hr with hd | hr
        · exact Or.inr (Or.inl (mem_digitChars hd))
        rcases List.mem_cons.mp hr with rfl | hr
        · exact Or.inl (by decide)
        rcases List.mem_singleton.mp hr with rfl
        exact Or.inl (by decide)
    · exact Or.inr (Or.inr hn)
  · rcases List.mem_singleton.mp h2 with rfl
    exact Or.inl (by decide)

theorem declLineChars_eq (d : PDecl) :
    declLineChars d =
      ((dirStr d.dir).data ++ [' ']) ++ ((renderRange d.range ++ d.name.data) ++ [';']) := by
  simp [declLineChars]

theorem mem_declLineChars {d : PDecl} {c : Char} (hc : c ∈ declLineChars d) :
    c ∈ "inputoutput ;[]:".data ∨ digitCh c = true ∨ c ∈ d.name.data := by
  rw [declLineChars_eq] at hc
  rcases List.mem_append.mp hc with h1 | h2
  · rcases List.mem_append.mp h1 with ha | hb
    · left
      cases hd : d.dir <;> rw [hd] at ha <;>
        exact (by decide : ((dirStr _).data : List Char) ⊆ "inputoutput ;[]:".data) ha
    · rcases List.mem_singleton.mp hb with rfl
      exact Or.inl (by decide)
  · rcases mem_declRest h2 with hs | hd | hn
    · exact Or.inl ((by decide : ("[]: ;".data : List Char) ⊆ "inputoutput ;[]:".data) hs)
    · exact Or.inr (Or.inl hd)
    · exact Or.inr (Or.inr hn)

theorem not_mem_declLine {d : PDecl} (_hg : GoodName d.name) {c : Char}
    (h1 : c ∉ "inputoutput ;[]:".data) (h2 : digitCh c = false)
    (h3 : ∀ x ∈ d.name.data, x ≠ c) : c ∉ declLineChars d := by
  intro hc
  rcases mem_declLineChars hc with h | h | h
  · exact h1 h
  · rw [h2] at h; cases h
  · exact h3 c h rfl

theorem not_mem_name_of_not_word {nm : String} (hg : GoodName nm) {c : Char}
    (hw : wordChar c = false) : c ∉ nm.data := by
  intro hc
  have := (hg.2 c hc).1
  rw [hw] at this
  cases this

/-- Every line of a rendered module is neutral for `checkSyntax`. -/
def NeutralLine (l : String) : Prop :=
  (startsKwAfterWS l.data && !sIncludes l ";" && !sIncludes l "(") = false ∧
  sIncludes l "if" = false ∧
  countCh '(' l.data = countCh ')' l.data ∧
  countCh '[' l.data = countCh ']' l.data ∧
  countWordTok "begin".data l.data = countWordTok "end".data l.data

theorem syntaxLineErrs_neutral {l : String} (next : Option String) (n : Nat)
    (h : NeutralLine l) : syntaxLineErrs l next n = [] := by
  unfold syntaxLineErrs
  rw [h.1, h.2.1]
  simp

theorem checkSyntaxGo_neutral :
    ∀ (lines : List String) (idx : Nat) (p b g : Int), (∀ l ∈ lines, NeutralLine l) →
      checkSyntaxGo lines idx p b g = ([], p, b, g)
  | [], _, _, _, _, _ => rfl
  | l :: rest, idx, p, b, g, h => by
    have hl := h l (List.mem_cons_self _ _)
    have hrest := fun x hx => h x (List.mem_cons_of_mem _ hx)
    rw [checkSyntaxGo, syntaxLineErrs_neutral rest.head? (idx + 1) hl,
      checkSyntaxGo_neutral rest (idx + 1) _ _ _ hrest]
    rcases hl with ⟨-, -, h1, h2, h3⟩
    rw [h1, h2, h3]
    simp

/-! #### The lines of a rendered module -/

theorem splitNl_append {xs : List Char} (ys : List Char) (h : '\n' ∉ xs) :
    splitNl (xs ++ '\n' :: ys) = xs :: splitNl ys := by
  induction xs with
  | nil => simp [splitNl]
  | cons c t ih =>
    have hc : ¬ c = '\n' := fun e => h (e ▸ List.mem_cons_self c t)
    have ht : '\n' ∉ t := fun hm => h (List.mem_cons_of_mem _ hm)
    rw [List.cons_append, splitNl, if_neg hc, ih ht]

theorem nl_not_mem_declLine {d : PDecl} (hg : GoodName d.name) :
    '\n' ∉ declLineChars d :=
  not_mem_declLine hg (by decide) (by decide)
    (fun x hx e => absurd ((hg.2 x hx).1) (by rw [e]; decide))

theorem splitNl_body (ds : List PDecl) (h : ∀ d ∈ ds, GoodName d.name) :
    splitNl ((ds.map renderDecl).flatten ++ ("endmodule".data ++ ['\n'])) =
      (ds.map declLineChars) ++ ["endmodule".data, []] := by
  induction ds with
  | nil => rfl
  | cons d ds ih =>
    have hgd : GoodName d.name := h d (List.mem_cons_self _ _)
    have h' : ∀ x ∈ ds, GoodName x.name := fun x hx => h x (List.mem_cons_of_mem _ hx)
    rw [List.map_cons, List.flatten_cons, List.append_assoc,
      show (renderDecl d ++ ((ds.map renderDecl).flatten ++ ("endmodule".data ++ ['\n'])) :
          List Char) =
        declLineChars d ++ '\n' ::
          ((ds.map renderDecl).flatten ++ ("endmodule".data ++ ['\n'])) by
        simp [renderDecl],
      splitNl_append _ (nl_not_mem_declLine hgd), ih h', List.map_cons, List.cons_append]

/-- The header line of a rendered module, without its newline. -/
def headerLine (ds : List PDecl) : List Char :=
  "module top(".data ++ (commaNames ds ++ [')', ';'])

theorem renderModule_data (ds : List PDecl) :
    (renderModule ds).data =
      headerLine ds ++ '\n' ::
        ((ds.map renderDecl).flatten ++ ("endmodule".data ++ ['\n'])) := by
  simp [renderModule, headerLine]

theorem nl_not_mem_header {ds : List PDecl} (h : ∀ d ∈ ds, GoodName d.name) :
    '\n' ∉ headerLine ds := by
  intro hc
  rcases List.mem_append.mp hc with h1 | h2
  · exact absurd h1 (by decide)
  rcases List.mem_append.mp h2 with h1 | h1
  · rcases mem_commaNames h1 with ⟨d, hd, hm⟩ | e | e
    · exact absurd ((h d hd).2 _ hm).1 (by decide)
    · exact absurd e (by decide)
    · exact absurd e (by decide)
  · exact absurd h1 (by decide)

theorem splitLines_renderModule (ds : List PDecl) (h : ∀ d ∈ ds, GoodName d.name) :
    splitLines (renderModule ds) =
      (⟨headerLine ds⟩ : String) ::
        ((ds.map fun d => (⟨declLineChars d⟩ : String)) ++
          [⟨"endmodule".data⟩, ⟨[]⟩]) := by
  unfold splitLines
  rw [renderModule_data, splitNl_append _ (nl_not_mem_header h), splitNl_body ds h]
  simp

/-! #### Neutrality of each line shape -/

theorem not_mem_commaTail {ds : List PDecl} (h : ∀ d ∈ ds, GoodName d.name) {c : Char}
    (hw : wordChar c = false) (h1 : c ≠ ',') (h2 : c ≠ ' ') (h3 : c ≠ ')') (h4 : c ≠ ';') :
    c ∉ commaNames ds ++ [')', ';'] := by
  intro hc
  rcases List.mem_append.mp hc with hm | hm
  · rcases mem_commaNames hm with ⟨d, hd, hmm⟩ | e | e
    · have := ((h d hd).2 c hmm).1
      rw [hw] at this
      cases this
    · exact h1 e
    · exact h2 e
  · rcases List.mem_cons.mp hm with e | hm
    · exact h3 e
    · exact h4 (List.mem_singleton.mp hm)

theorem neutral_header {ds : List PDecl} (h : ∀ d ∈ ds, GoodName d.name) :
    NeutralLine ⟨headerLine ds⟩ := by
  have hparen : ('(' : Char) ∈ headerLine ds :=
    List.mem_append.mpr (Or.inl (by decide))
  have hnoI : ('i' : Char) ∉ headerLine ds := by
    intro hc
    rcases List.mem_append.mp hc with h1 | h1
    · exact absurd h1 (by decide)
    rcases List.mem_append.mp h1 with hm | hm
    · rcases mem_commaNames hm with ⟨d, hd, hmm⟩ | e | e
      · exact absurd rfl ((h d hd).2 _ hmm).2.1
      · exact absurd e (by decide)
      · exact absurd e (by decide)
    · exact absurd hm (by decide)
  have hnoE : ('e' : Char) ∉ commaNames ds ++ [')', ';'] := by
    intro hc
    rcases List.mem_append.mp hc with hm | hm
    · rcases mem_commaNames hm with ⟨d, hd, hmm⟩ | e | e
      · exact absurd rfl ((h d hd).2 _ hmm).2.2.2.1
      · exact absurd e (by decide)
      · exact absurd e (by decide)
    · exact absurd hm (by decide)
  have hparenComma : ('(' : Char) ∉ commaNames ds :=
    fun hm => not_mem_commaTail (c := '(') h (by decide) (by decide) (by decide) (by decide)
      (by decide) (List.mem_append.mpr (Or.inl hm))
  have hcparenComma : (')' : Char) ∉ commaNames ds := fun hm => by
    rcases mem_commaNames hm with ⟨d, hd, hmm⟩ | e | e
    · exact absurd ((h d hd).2 _ hmm).1 (by decide)
    · exact absurd e (by decide)
    · exact absurd e (by decide)
  refine ⟨?_, ?_, ?_, ?_, ?_⟩
  · rw [show sIncludes ⟨headerLine ds⟩ "(" = containsSub ['('] (headerLine ds) from rfl,
      containsSub_singleton_of_mem hparen]
    simp
  · rw [show sIncludes ⟨headerLine ds⟩ "if" = containsSub ('i' :: 'f' :: []) (headerLine ds)
      from rfl]
    exact containsSub_pair_false (noPair_of_left hnoI)
  · show countCh '(' (headerLine ds) = countCh ')' (headerLine ds)
    unfold headerLine
    rw [countCh_append, countCh_append, countCh_append, countCh_append,
      countCh_zero hparenComma, countCh_zero hcparenComma]
    decide
  · show countCh '[' (headerLine ds) = countCh ']' (headerLine ds)
    unfold headerLine
    rw [countCh_zero (c := '[') (fun hc => by
        rcases List.mem_append.mp hc with h1 | h1
        · exact absurd h1 (by decide)
        · exact not_mem_commaTail (c := '[') h (by decide) (by decide) (by decide) (by decide)
            (by decide) h1),
      countCh_zero (c := ']') (fun hc => by
        rcases List.mem_append.mp hc with h1 | h1
        · exact absurd h1 (by decide)
        · exact not_mem_commaTail (c := ']') h (by decide) (by decide) (by decide) (by decide)
            (by decide) h1)]
  · show countWordTok "begin".data (headerLine ds) = countWordTok "end".data (headerLine ds)
    unfold countWordTok headerLine
    rw [show ("begin".data : List Char) = 'b' :: 'e' :: ['g', 'i', 'n'] from rfl,
      show ("end".data : List Char) = 'e' :: 'n' :: ['d'] from rfl,
      countWordTokAux_pair_zero none
        (noPair_append_of_last (x := '(') (by decide) (by decide) (by decide)
          (noPair_of_right hnoE)),
      countWordTokAux_pair_zero none
        (noPair_append_of_last (x := '(') (by decide) (by decide) (by decide)
          (noPair_of_left hnoE))]

theorem neutral_declLine {d : PDecl} (hg : GoodName d.name) :
    NeutralLine ⟨declLineChars d⟩ := by
  have hsemi : (';' : Char) ∈ declLineChars d := by
    rw [declLineChars_eq]
    exact List.mem_append.mpr (Or.inr (List.mem_append.mpr (Or.inr (by decide))))
  have hnoE : ('e' : Char) ∉ declLineChars d :=
    not_mem_declLine hg (by decide) (by decide)
      (fun x hx e => absurd rfl (e ▸ (hg.2 x hx).2.2.2.1))
  have hnoIrest : ('i' : Char) ∉ (renderRange d.range ++ d.name.data) ++ [';'] := by
    intro hc
    rcases mem_declRest hc with h1 | h1 | h1
    · exact absurd h1 (by decide)
    · exact absurd h1 (by decide)
    · exact absurd rfl ((hg.2 _ h1).2.1)
  refine ⟨?_, ?_, ?_, ?_, ?_⟩
  · rw [show sIncludes ⟨declLineChars d⟩ ";" = containsSub [';'] (declLineChars d) from rfl,
      containsSub_singleton_of_mem hsemi]
    simp
  · rw [show sIncludes ⟨declLineChars d⟩ "if" = containsSub ('i' :: 'f' :: []) (declLineChars d)
      from rfl, declLineChars_eq]
    refine containsSub_pair_false
      (noPair_append_of_last (x := ' ') ?_ (by decide) ?_ (noPair_of_left hnoIrest))
    · cases hd : d.dir <;> decide
    · cases hd : d.dir <;> decide
  · show countCh '(' (declLineChars d) = countCh ')' (declLineChars d)
    rw [countCh_zero (not_mem_declLine hg (by decide) (by decide)
        (fun x hx e => absurd ((hg.2 x hx).1) (by rw [e]; decide))),
      countCh_zero (not_mem_declLine hg (by decide) (by decide)
        (fun x hx e => absurd ((hg.2 x hx).1) (by rw [e]; decide)))]
  · show countCh '[' (declLineChars d) = countCh ']' (declLineChars d)
    rw [declLineChars_eq]
    simp only [countCh_append]
    have hnm1 : countCh '[' d.name.data = 0 :=
      countCh_zero (not_mem_name_of_not_word hg (by decide))
    have hnm2 : countCh ']' d.name.data = 0 :=
      countCh_zero (not_mem_name_of_not_word hg (by decide))
    have hdir : countCh '[' (dirStr d.dir).data = 0 ∧ countCh ']' (dirStr d.dir).data = 0 := by
      cases hd : d.dir <;> exact ⟨by decide, by decide⟩
    have hrng : countCh '[' (renderRange d.range) = countCh ']' (renderRange d.range) := by
      cases hr : d.range with
      | none => rfl
      | some ml =>
        rcases ml with ⟨m, l⟩
        have d1 : countCh '[' (digitChars m) = 0 :=
          countCh_zero (fun hm => absurd (mem_digitChars hm) (by decide))
        have d2 : countCh '[' (digitChars l) = 0 :=
          countCh_zero (fun hm => absurd (mem_digitChars hm) (by decide))
        have d3 : countCh ']' (digitChars m) = 0 :=
          countCh_zero (fun hm => absurd (mem_digitChars hm) (by decide))
        have d4 : countCh ']' (digitChars l) = 0 :=
          countCh_zero (fun hm => absurd (mem_digitChars hm) (by decide))
        rw [show renderRange (some (m, l)) =
            ['['] ++ (digitChars m ++ ([':'] ++ (digitChars l ++ [']', ' ']))) from rfl]
        simp only [countCh_append]
        rw [d1, d2, d3, d4]
        simp [countCh]
    rw [hnm1, hnm2, hdir.1, hdir.2, hrng]
    simp [countCh]
  · show countWordTok "begin".data (declLineChars d) = countWordTok "end".data (declLineChars d)
    unfold countWordTok
    rw [show ("begin".data : List Char) = 'b' :: 'e' :: ['g', 'i', 'n'] from rfl,
      show ("end".data : List Char) = 'e' :: 'n' :: ['d'] from rfl,
      countWordTokAux_pair_zero none (noPair_of_right hnoE),
      countWordTokAux_pair_zero none (noPair_of_left hnoE)]

theorem neutral_endmodule : NeutralLine ⟨"endmodule".data⟩ := by
  refine ⟨by decide, by decide, by decide, by decide, by decide⟩

theorem neutral_empty : NeutralLine ⟨[]⟩ := by
  refine ⟨by decide, by decide, by decide, by decide, by decide⟩

theorem checkSyntax_renderModule (ds : List PDecl) (h : ∀ d ∈ ds, GoodName d.name) :
    checkSyntax (renderModule ds) = [] := by
  unfold checkSyntax
  rw [splitLines_renderModule ds h,
    checkSyntaxGo_neutral _ 0 0 0 0 (by
      intro l hl
      rcases List.mem_cons.mp hl with rfl | hl
      · exact neutral_header h
      rcases List.mem_append.mp hl with hm | hm
      · rcases List.mem_map.mp hm with ⟨d, hd, rfl⟩
        exact neutral_declLine (h d hd)
      rcases List.mem_cons.mp hm with rfl | hm
      · exact neutral_endmodule
      rcases List.mem_singleton.mp hm with rfl
      · exact neutral_empty)]
  simp [unbalancedErr]

/-! #### The amended claim -/

instance (n : String) : Decidable (GoodName n) :=
  decidable_of_iff
    (n.data ≠ [] ∧ ∀ c ∈ n.data, wordChar c = true ∧ c ≠ 'i' ∧ c ≠ 'o' ∧ c ≠ 'e' ∧ c ≠ 'n')
    Iff.rfl

theorem length_filter_dirs (ds : List PDecl) :
    (ds.filter (fun d => d.dir = PortDir.input)).length +
      (ds.filter (fun d => d.dir = PortDir.output)).length = ds.length := by
  induction ds with
  | nil => rfl
  | cons d t ih =>
    cases hd : d.dir <;> simp [List.filter_cons, hd] <;> omega

theorem extractPorts_renderModule (ds : List PDecl) (h : ∀ d ∈ ds, GoodName d.name) :
    (extractPorts (renderModule ds)).map (fun p => (p.name, p.direction, p.width)) =
      ds.map (fun d => (d.name, dirStr d.dir, declaredWidth d.range)) := by
  unfold extractPorts
  rw [show (["input", "output", "inout"] : List String) = portKws from rfl,
    declScan_renderModule ds h _ (Nat.le_succ _)]
  exact ports_projection _ ds _

/-- **C4** (amended).  For every non-ANSI single-module source of the `renderModule`
family — a header listing the port names, one `input`/`output` declaration per body
line, names made of word characters avoiding `i`, `o`, `e`, `n` — `extractPorts`
returns exactly N+M entries, one per declared input and output, each carrying the
declared name, the declared direction keyword, and the declared width
`msb - lsb + 1` (1 when no range is declared), and `checkSyntax` returns zero
findings. -/
theorem nonansi_ports_extracted (ds : List PDecl) (h : ∀ d ∈ ds, GoodName d.name) :
    (extractPorts (renderModule ds)).map (fun p => (p.name, p.direction, p.width)) =
      ds.map (fun d => (d.name, dirStr d.dir, declaredWidth d.range)) ∧
    (extractPorts (renderModule ds)).length =
      (ds.filter (fun d => d.dir = PortDir.input)).length +
        (ds.filter (fun d => d.dir = PortDir.output)).length ∧
    checkSyntax (renderModule ds) = [] := by
  have hmap := extractPorts_renderModule ds h
  refine ⟨hmap, ?_, checkSyntax_renderModule ds h⟩
  have hlen : (extractPorts (renderModule ds)).length = ds.length := by
    have := congrArg List.length hmap
    simpa using this
  rw [hlen]
  exact (length_filter_dirs ds).symm

/-- A concrete member of the non-ANSI family: two inputs and one output. -/
def c4Decls : List PDecl :=
  [⟨PortDir.input, some (3, 0), "a"⟩, ⟨PortDir.input, none, "b"⟩,
    ⟨PortDir.output, some (7, 0), "s"⟩]

/-- **C4** (witness): the amended claim applied to a concrete three-port module. -/
theorem nonansi_ports_extracted_witness :
    (∀ d ∈ c4Decls, GoodName d.name) ∧
    ((extractPorts (renderModule c4Decls)).map (fun p => (p.name, p.direction, p.width)) =
        c4Decls.map (fun d => (d.name, dirStr d.dir, declaredWidth d.range)) ∧
      (extractPorts (renderModule c4Decls)).length =
        (c4Decls.filter (fun d => d.dir = PortDir.input)).length +
          (c4Decls.filter (fun d => d.dir = PortDir.output)).length ∧
      checkSyntax (renderModule c4Decls) = []) :=
  ⟨by decide, nonansi_ports_extracted c4Decls (by decide)⟩

end ChipChat
